import Mathlib

/-!
# Verification of the gridgame core (`src/game/game.py`)

Shallow embedding of the `Grid` and `Game` classes from `src/game/game.py`.

Modelling conventions:
* Python `int` becomes `Int`.
* The backing 2D list (sized `(height+2) × (width+2)` with an `EDGE` border)
  is modelled as a total function `Int → Int → Int` on backing indices.
  Every backing access in the source is guarded by `_range_check` /
  `_on_grid`, so only indices inside the backing array are ever read or
  written and the two representations agree.
* Methods that can raise (`ValueError` → `invalidArgument`,
  `IndexError` → `outOfBounds`) return `Except GameError`.
* Mutation is explicit state passing: `set` returns the updated grid
  (the source returns the stored value, which no caller uses).
* The `while` loops of `_squash`/`_combine` advance `curr` by `delta = ±1`
  every iteration, so they perform at most `max_` iterations; they are
  embedded with an explicit fuel of `max_.toNat`, which is enough for the
  loop condition to become false before the fuel runs out.
* `random.choice` over the available cells is modelled by an arbitrary
  index `k : Nat` taken modulo the number of available cells; the caught
  `IndexError` on an empty sequence becomes the explicit empty case.
-/

namespace GridGame

/-- Error kinds of the core: `ValueError` (`invalidArgument`) and
`IndexError` (`outOfBounds`). -/
inductive GameError where
  | invalidArgument
  | outOfBounds
  deriving DecidableEq

/-- `class Grid`: width/height plus the backing 2D array (as a function on
backing indices; see the module docstring). -/
structure Grid where
  width : Int
  height : Int
  cells : Int → Int → Int

/-- `Grid.UP = (-1, 0)` -/
def Grid.UP : Int × Int := (-1, 0)

/-- `Grid.DOWN = (1, 0)` -/
def Grid.DOWN : Int × Int := (1, 0)

/-- `Grid.LEFT = (0, -1)` -/
def Grid.LEFT : Int × Int := (0, -1)

/-- `Grid.RIGHT = (0, 1)` -/
def Grid.RIGHT : Int × Int := (0, 1)

/-- `Grid.DIRECTIONS = [UP, RIGHT, DOWN, LEFT]` -/
def Grid.DIRECTIONS : List (Int × Int) := [Grid.UP, Grid.RIGHT, Grid.DOWN, Grid.LEFT]

/-- `Grid.EDGE = -1` -/
def Grid.EDGE : Int := -1

/-- `Grid.EMPTY = 0` -/
def Grid.EMPTY : Int := 0

/-- `Grid.__init__` / `Grid._makegrid`: validates the dimensions and builds
the backing array: the public `width × height` block (backing indices
`1..height`, `1..width`) holds `EMPTY`, the surrounding ring holds `EDGE`. -/
def Grid.make (width height : Int) : Except GameError Grid :=
  if width ≤ 0 ∨ height ≤ 0 then .error .invalidArgument
  else .ok { width := width, height := height,
             cells := fun j i =>
               if 1 ≤ j ∧ j ≤ height ∧ 1 ≤ i ∧ i ≤ width then Grid.EMPTY else Grid.EDGE }

/-- `Grid._on_grid`: backing indices land in the public block. -/
def Grid.onGrid (g : Grid) (j i : Int) : Bool :=
  decide ((0 < i ∧ i ≤ g.width) ∧ (0 < j ∧ j ≤ g.height))

/-- `Grid.get`: `_range_check` (raising `IndexError` = `outOfBounds`) then
read the backing array at `_to_grid_indices (j, i) = (j+1, i+1)`. -/
def Grid.get (g : Grid) (j i : Int) : Except GameError Int :=
  if g.onGrid (j + 1) (i + 1) then .ok (g.cells (j + 1) (i + 1)) else .error .outOfBounds

/-- `Grid.set`: `_range_check` then write the backing array at `(j+1, i+1)`.
Returns the updated grid (state passing). -/
def Grid.set (g : Grid) (j i v : Int) : Except GameError Grid :=
  if g.onGrid (j + 1) (i + 1) then
    .ok { g with cells := fun p q => if p = j + 1 ∧ q = i + 1 then v else g.cells p q }
  else .error .outOfBounds

/-- `Grid._cell_indices`: backing indices `(j, i)` for `j ∈ [1, height]`,
`i ∈ [1, width]`, row major. -/
def Grid.cellIndices (g : Grid) : List (Int × Int) :=
  (List.range g.height.toNat).flatMap
    (fun (j : Nat) => (List.range g.width.toNat).map (fun (i : Nat) => ((j : Int) + 1, (i : Int) + 1)))

/-- `Grid.cell_values` (via `Grid._rows`): all public cell values in
row-major order. -/
def Grid.cellValues (g : Grid) : List Int :=
  (List.range g.height.toNat).flatMap
    (fun (j : Nat) => (List.range g.width.toNat).map (fun (i : Nat) => g.cells ((j : Int) + 1) ((i : Int) + 1)))

/-- `Grid.available_cells`: view indices (`_to_view_indices (j,i) = (j-1, i-1)`)
of public cells holding `EMPTY`. -/
def Grid.availableCells (g : Grid) : List (Int × Int) :=
  g.cellIndices.filterMap
    (fun p => if g.cells p.1 p.2 = Grid.EMPTY then some (p.1 - 1, p.2 - 1) else none)

/-- `Grid.occupied_cells`: view indices of public cells holding neither
`EMPTY` nor `EDGE`. -/
def Grid.occupiedCells (g : Grid) : List (Int × Int) :=
  g.cellIndices.filterMap
    (fun p => if g.cells p.1 p.2 ≠ Grid.EMPTY ∧ g.cells p.1 p.2 ≠ Grid.EDGE
              then some (p.1 - 1, p.2 - 1) else none)

/-- `Grid.neighbors`: per direction, `_to_grid_indices`, `_apply_dir`,
`_on_grid` filter, `_to_view_indices`. No bounds check on the input. -/
def Grid.neighbors (g : Grid) (j i : Int) (directions : List (Int × Int)) : List (Int × Int) :=
  directions.filterMap (fun d =>
    if g.onGrid (j + 1 + d.1) (i + 1 + d.2) then some (j + 1 + d.1 - 1, i + 1 + d.2 - 1)
    else none)

/-- Python's `max` over a sequence as a left fold (the source only applies it
to the nonempty `cell_values()`; the empty case is given the junk value 0). -/
def listMax : List Int → Int
  | [] => 0
  | x :: xs => xs.foldl max x

/-- `class Game`: owned grid, `initial_value` (spawn value), `goal`,
`_max` (best value seen, named `max` here). -/
structure Game where
  grid : Grid
  initial_value : Int
  goal : Int
  max : Int

/-- `Game.__init__(width, height, goal, initial_value)`. -/
def Game.make (width height goal initial_value : Int) : Except GameError Game := do
  let g ← Grid.make width height
  pure { grid := g, initial_value := initial_value, goal := goal, max := 0 }

/-- `Game._validate_direction`. -/
def Game.validateDirection (direction : Int × Int) : Except GameError Unit :=
  if direction ∈ Grid.DIRECTIONS then pure () else .error .invalidArgument

/-- `Game._get_params_for_direction` (a `Game` method that only reads
`self.grid`): returns `(start, max_, delta, transposed)`, where `transposed`
stands for the transposing accessor pair chosen for UP/DOWN
(`get_ = lambda j, i: grid.get(i, j)` etc.), see `gget`/`gset`. -/
def getParamsForDirection (g : Grid) (direction : Int × Int) :
    Except GameError (Int × Int × Int × Bool) :=
  (if direction = Grid.LEFT ∨ direction = Grid.RIGHT then pure (g.width, false)
   else if direction = Grid.UP ∨ direction = Grid.DOWN then pure (g.height, true)
   else Except.error GameError.invalidArgument) >>= fun (max_, transposed) =>
  (if direction = Grid.LEFT ∨ direction = Grid.UP then pure ((1 : Int), (0 : Int))
   else if direction = Grid.RIGHT ∨ direction = Grid.DOWN then pure ((-1 : Int), max_ - 1)
   else Except.error GameError.invalidArgument) >>= fun (delta, start) =>
  pure (start, max_, delta, transposed)

/-- The `get_` accessor of `_get_params_for_direction`: direct for
LEFT/RIGHT, transposed for UP/DOWN. -/
def gget (transposed : Bool) (g : Grid) (j i : Int) : Except GameError Int :=
  if transposed then g.get i j else g.get j i

/-- The `set_` accessor of `_get_params_for_direction`. -/
def gset (transposed : Bool) (g : Grid) (j i v : Int) : Except GameError Grid :=
  if transposed then g.set i j v else g.set j i v

/-- The inner `while` loop of `Game._squash` for one `row`, with explicit
fuel (the loop advances `curr` by `delta = ±1` every iteration, so
`max_.toNat` fuel outlasts the loop condition). -/
def squashLoop (tr : Bool) (max_ delta row : Int) :
    Nat → Int → Int → Grid → Except GameError Grid
  | 0, _, _, g => pure g
  | fuel + 1, curr, last_empty, g =>
    if (0 ≤ curr ∧ curr < max_) ∧ (0 ≤ last_empty ∧ last_empty < max_) then do
      let lv ← gget tr g row last_empty
      if lv = Grid.EMPTY then do
        let cv ← gget tr g row curr
        if cv > 0 then do
          let g1 ← gset tr g row last_empty cv
          let g2 ← gset tr g1 row curr Grid.EMPTY
          squashLoop tr max_ delta row fuel (curr + delta) (last_empty + delta) g2
        else
          squashLoop tr max_ delta row fuel (curr + delta) last_empty g
      else
        squashLoop tr max_ delta row fuel (curr + delta) (last_empty + delta) g
    else pure g

/-- One iteration of the `for row in range(max_)` loop of `Game._squash`:
`curr = last_empty = start`, then the `while` loop. -/
def squashLine (start max_ delta : Int) (tr : Bool) (row : Int) (g : Grid) :
    Except GameError Grid :=
  squashLoop tr max_ delta row max_.toNat start start g

/-- `Game._squash(start, max_, delta, get_, set_)`: note the source iterates
`for row in range(max_)` — the scan length bound — not over the number of
lines. -/
def squashGrid (start max_ delta : Int) (tr : Bool) (g : Grid) : Except GameError Grid :=
  (List.range max_.toNat).foldlM (fun g (row : Nat) => squashLine start max_ delta tr (row : Int) g) g

/-- The `bounds` lambda of `Game._combine`. -/
def combineBounds (start max_ x : Int) : Bool :=
  if start = 0 then decide (x < max_ - 1) else decide (0 < x)

/-- The inner `while` loop of `Game._combine` for one `row`, with explicit
fuel (each iteration moves `curr` by `delta` or `2*delta` toward the bound). -/
def combineLoop (tr : Bool) (start max_ delta row : Int) :
    Nat → Int → Grid → Except GameError Grid
  | 0, _, g => pure g
  | fuel + 1, curr, g =>
    if combineBounds start max_ curr then do
      let curr_val ← gget tr g row curr
      let next_val ← gget tr g row (curr + delta)
      if curr_val ≠ Grid.EMPTY ∧ curr_val = next_val then do
        let g1 ← gset tr g row curr (curr_val * 2)
        let g2 ← gset tr g1 row (curr + delta) Grid.EMPTY
        combineLoop tr start max_ delta row fuel (curr + delta * 2) g2
      else
        combineLoop tr start max_ delta row fuel (curr + delta) g
    else pure g

/-- One iteration of the `for row in range(max_)` loop of `Game._combine`. -/
def combineLine (start max_ delta : Int) (tr : Bool) (row : Int) (g : Grid) :
    Except GameError Grid :=
  combineLoop tr start max_ delta row max_.toNat start g

/-- `Game._combine(start, max_, delta, get_, set_)`: iterates
`for row in range(max_)`, like `_squash`. -/
def combineGrid (start max_ delta : Int) (tr : Bool) (g : Grid) : Except GameError Grid :=
  (List.range max_.toNat).foldlM (fun g (row : Nat) => combineLine start max_ delta tr (row : Int) g) g

/-- `Game._place_random`: `random.choice(list(available_cells()))` — a
uniformly random element, modelled by an arbitrary index `k` modulo the
length — then `set` it to `initial_value`; the `IndexError` on an empty
sequence is caught and the method returns with no change. -/
def Game.placeRandom (gm : Game) (k : Nat) : Except GameError Game :=
  let cells := gm.grid.availableCells
  if cells.isEmpty then pure gm
  else do
    let chosen := cells.getD (k % cells.length) (0, 0)
    let g ← gm.grid.set chosen.1 chosen.2 gm.initial_value
    pure { gm with grid := g }

/-- `Game.start`: two random placements (randomness indices `k1`, `k2`). -/
def Game.start (gm : Game) (k1 k2 : Nat) : Except GameError Game := do
  let gm1 ← gm.placeRandom k1
  gm1.placeRandom k2

/-- `max(self.grid.cell_values())` as used at the end of `Game.slam`. -/
def gridMax (g : Grid) : Int := listMax g.cellValues

/-- `Game.slam(direction)` (randomness index `k` for the spawn):
validate, fetch the per-direction parameters, squash + combine + squash,
place a random tile, recompute `_max`. -/
def Game.slam (gm : Game) (k : Nat) (direction : Int × Int) : Except GameError Game := do
  Game.validateDirection direction
  let (start, max_, delta, tr) ← getParamsForDirection gm.grid direction
  let g1 ← squashGrid start max_ delta tr gm.grid
  let g2 ← combineGrid start max_ delta tr g1
  let g3 ← squashGrid start max_ delta tr g2
  let gm1 ← Game.placeRandom { gm with grid := g3 } k
  pure { gm1 with max := gridMax gm1.grid }

/-- Early-return `for` loop over a list: first `true` wins (helper for
`any_can_move` / `_position_can_move`). -/
def anyEM {α : Type} (f : α → Except GameError Bool) : List α → Except GameError Bool
  | [] => pure false
  | x :: xs => do
    let b ← f x
    if b then pure true else anyEM f xs

/-- `Game._position_can_move`: some neighbor is `EMPTY` or equals the
current value. -/
def Game.positionCanMove (gm : Game) (j i : Int) (directions : List (Int × Int)) :
    Except GameError Bool := do
  let current ← gm.grid.get j i
  anyEM (fun p => do
      let nv ← gm.grid.get p.1 p.2
      pure (decide (nv = Grid.EMPTY ∨ nv = current)))
    (gm.grid.neighbors j i directions)

/-- `Game.any_can_move(directions)`: note there is no direction validation
here; `for i in range(width): for j in range(height): ...` with early
return. -/
def Game.anyCanMove (gm : Game) (directions : List (Int × Int)) : Except GameError Bool :=
  anyEM (fun (i : Nat) =>
      anyEM (fun (j : Nat) => do
          let v ← gm.grid.get (j : Int) (i : Int)
          if v = Grid.EMPTY then pure true
          else gm.positionCanMove (j : Int) (i : Int) directions)
        (List.range gm.grid.height.toNat))
    (List.range gm.grid.width.toNat)

/-- `Game.goal_met`: `self._max >= self.goal`. -/
def Game.goalMet (gm : Game) : Bool := decide (gm.goal ≤ gm.max)

/-- `Game.is_over`: `goal_met() or not any_can_move()` (short-circuit). -/
def Game.isOver (gm : Game) : Except GameError Bool :=
  if gm.goalMet then pure true
  else do
    let b ← gm.anyCanMove Grid.DIRECTIONS
    pure (!b)

/-! ### Verification-side definitions -/

/-- View cell of the accessor pair: `vcell tr g row c` is the backing value
that `get_(row, c)` reads when in range (direct for LEFT/RIGHT, transposed
for UP/DOWN). -/
def vcell (tr : Bool) (g : Grid) (row c : Int) : Int :=
  if tr then g.cells (c + 1) (row + 1) else g.cells (row + 1) (c + 1)

/-- Backing indices addressed by the accessor pair at `(row, c)`. -/
def vback (tr : Bool) (row c : Int) : Int × Int :=
  if tr then (c + 1, row + 1) else (row + 1, c + 1)

/-- Extent of valid `row` arguments of the accessor pair. -/
def rowBound (tr : Bool) (g : Grid) : Int := if tr then g.width else g.height

/-- Extent of valid scan arguments of the accessor pair (always the
dimension `max_` is set to for a recognized direction). -/
def lineLen (tr : Bool) (g : Grid) : Int := if tr then g.height else g.width

/-- The `row` argument addresses an existing line. -/
def rowOK (tr : Bool) (g : Grid) (row : Int) : Prop := 0 ≤ row ∧ row < rowBound tr g

/-- Scan position reached after `k` loop iterations (`start + k * delta`). -/
def spos (start delta : Int) (k : Nat) : Int := start + (k : Int) * delta

/-- The line is "already squashed" as the claim words it: every value that
follows an `EMPTY` position (in scan order) is `EMPTY`, i.e. all non-empty
values sit packed against the start edge. -/
def PackedLine (start max_ delta : Int) (tr : Bool) (g : Grid) (row : Int) : Prop :=
  ∀ k, k < max_.toNat → ∀ l, l ≤ k →
    vcell tr g row (spos start delta l) = Grid.EMPTY →
    vcell tr g row (spos start delta k) = Grid.EMPTY

/-- Fixpoint property of `_squash`: no positive value follows an `EMPTY`
position in scan order. -/
def NoPosAfterEmpty (start max_ delta : Int) (tr : Bool) (g : Grid) (row : Int) : Prop :=
  ∀ k, k < max_.toNat → ∀ l, l ≤ k →
    vcell tr g row (spos start delta l) = Grid.EMPTY →
    vcell tr g row (spos start delta k) ≤ 0

/-- All scan positions of the line hold non-negative values. -/
def NonnegLine (start max_ delta : Int) (tr : Bool) (g : Grid) (row : Int) : Prop :=
  ∀ k, k < max_.toNat → 0 ≤ vcell tr g row (spos start delta k)

/-- Every public cell (backing indices) holds a non-negative value
(`EMPTY` or positive). -/
def NonnegGrid (g : Grid) : Prop :=
  ∀ j i : Int, 1 ≤ j → j ≤ g.height → 1 ≤ i → i ≤ g.width → 0 ≤ g.cells j i

/-- Some public cell holds a value `≥ m`. -/
def HasCellGe (g : Grid) (m : Int) : Prop :=
  ∃ j i : Int, 1 ≤ j ∧ j ≤ g.height ∧ 1 ≤ i ∧ i ≤ g.width ∧ m ≤ g.cells j i

/-- Sum of the values of one line across its scan extent `[0, max_)`. -/
def lineSum (tr : Bool) (max_ : Int) (g : Grid) (row : Int) : Int :=
  ∑ c ∈ Finset.range max_.toNat, vcell tr g row ((c : Int))

/-- The neighbor enumeration exactly as the claim words it: for each
direction in order, the adjacent position, kept iff it lies within the
public bounds. -/
def neighborsSpec (g : Grid) (j i : Int) (directions : List (Int × Int)) : List (Int × Int) :=
  directions.filterMap (fun d =>
    if 0 ≤ j + d.1 ∧ j + d.1 < g.height ∧ 0 ≤ i + d.2 ∧ i + d.2 < g.width
    then some (j + d.1, i + d.2) else none)

/-- The cell `_place_random` picks when the available cells are nonempty
(`random.choice` modelled by index `k` modulo the length). -/
def chosenCell (gm : Game) (k : Nat) : Int × Int :=
  gm.grid.availableCells.getD (k % gm.grid.availableCells.length) (0, 0)

/-- Game states reachable by construction with the given parameters,
`start()`, and any sequence of completed `slam` calls (over all randomness
choices). -/
inductive ReachableG (width height goal iv : Int) : Game → Prop where
  | start : ∀ gm0 k1 k2 gm, Game.make width height goal iv = .ok gm0 →
      gm0.start k1 k2 = .ok gm → ReachableG width height goal iv gm
  | slam : ∀ gm k d gm', ReachableG width height goal iv gm →
      gm.slam k d = .ok gm' → ReachableG width height goal iv gm'

/-- Extract the success value of a computation (junk fallback: the
computations this is applied to all succeed, by `rfl`). -/
def okOr {α : Type} (x : Except GameError α) (fallback : α) : α :=
  match x with
  | .ok a => a
  | .error _ => fallback

/-- Fallback grid for `okOr`. -/
def junkGrid : Grid := { width := 0, height := 0, cells := fun _ _ => Grid.EDGE }

/-- Fallback game for `okOr`. -/
def junkGame : Game := { grid := junkGrid, initial_value := 0, goal := 0, max := 0 }

/-! ### Concrete instances used by the individual claims -/

/-- A 2-wide, 1-high game (valid construction). -/
def c1Game : Game := okOr (Game.make 2 1 4 2) junkGame

/-- A 2-wide, 3-high grid whose bottom row is `[0, 2]`. -/
def c2Grid : Grid := okOr (Grid.make 2 3 >>= fun g => g.set 2 1 2) junkGrid

/-- `c2Grid` after the first `_squash` of a LEFT slam. -/
def c2Grid1 : Grid := okOr (squashGrid 0 2 1 false c2Grid) junkGrid

/-- `c2Grid1` after `_combine`. -/
def c2Grid2 : Grid := okOr (combineGrid 0 2 1 false c2Grid1) junkGrid

/-- `c2Grid2` after the second `_squash`. -/
def c2Grid3 : Grid := okOr (squashGrid 0 2 1 false c2Grid2) junkGrid

/-- A fresh 1×1 grid. -/
def c3Grid0 : Grid := okOr (Grid.make 1 1) junkGrid

/-- `c3Grid0` after `set(0, 0, EDGE)`. -/
def c3Grid1 : Grid := okOr (c3Grid0.set 0 0 Grid.EDGE) junkGrid

/-- A 1×1 game with goal 0 and spawn value -5. -/
def c4GameA : Game := okOr (Game.make 1 1 0 (-5)) junkGame

/-- `c4GameA` after `start()`. -/
def c4GameB : Game := okOr (c4GameA.start 0 0) junkGame

/-- `c4GameB` after one completed LEFT slam. -/
def c4GameC : Game := okOr (c4GameB.slam 0 Grid.LEFT) junkGame

/-- A 1×1 game with goal 4 and spawn value 2. -/
def c4wGame0 : Game := okOr (Game.make 1 1 4 2) junkGame

/-- `c4wGame0` after `start()`. -/
def c4wGame1 : Game := okOr (c4wGame0.start 0 0) junkGame

/-- `c4wGame1` after one completed LEFT slam. -/
def c4wGame2 : Game := okOr (c4wGame1.slam 0 Grid.LEFT) junkGame

/-- A fresh 1×1 game. -/
def c5Game : Game := okOr (Game.make 1 1 4 2) junkGame

/-- A 1×1 grid whose only public cell was `set` to `EDGE`. -/
def c6Grid : Grid := okOr (Grid.make 1 1 >>= fun g => g.set 0 0 Grid.EDGE) junkGrid

/-- A fresh 1×1 grid. -/
def c6wGrid : Grid := okOr (Grid.make 1 1) junkGrid

/-- A 4-wide, 1-high grid holding the line `[0, -3, 5, 7]`. -/
def c7Grid : Grid :=
  okOr (Grid.make 4 1 >>= fun g => g.set 0 1 (-3) >>= fun g => g.set 0 2 5 >>=
        fun g => g.set 0 3 7) junkGrid

/-- `c7Grid` after one squash of its only line (LEFT parameters). -/
def c7Grid1 : Grid := okOr (squashLine 0 4 1 false 0 c7Grid) junkGrid

/-- `c7Grid1` after squashing the same line again. -/
def c7Grid2 : Grid := okOr (squashLine 0 4 1 false 0 c7Grid1) junkGrid

/-- A 2×2 grid whose top row is the packed line `[3, 0]`. -/
def c7wGrid : Grid := okOr (Grid.make 2 2 >>= fun g => g.set 0 0 3) junkGrid

/-- `c7wGrid` after one squash of line 0 (LEFT parameters). -/
def c7wGrid1 : Grid := okOr (squashLine 0 2 1 false 0 c7wGrid) junkGrid

/-- A 2×2 grid whose top row is `[1, 1]`. -/
def c8Grid : Grid :=
  okOr (Grid.make 2 2 >>= fun g => g.set 0 0 1 >>= fun g => g.set 0 1 1) junkGrid

/-- `c8Grid` after `_combine` with the LEFT parameters. -/
def c8Grid1 : Grid := okOr (combineGrid 0 2 1 false c8Grid) junkGrid

/-- A 2-wide, 1-high game with spawn value 7 (both cells empty). -/
def c10Game : Game := okOr (Game.make 2 1 4 7) junkGame

/-- `c10Game` after one random placement with index 0. -/
def c10Game1 : Game := okOr (c10Game.placeRandom 0) junkGame

/-! ### C1: slam raises OutOfBounds on non-square grids -/

/-- C1: refuted by the code. On a game whose grid is 2 wide and 1 high
(positive dimensions, freshly constructed state), `slam(LEFT)` fails with
an OutOfBounds error: `_squash` iterates `for row in range(max_)` where
`max_` is the scan length (the width, 2), not the number of rows (1), so
it calls `get(1, 0)` outside the public grid. -/
theorem c1_slam_left_out_of_bounds : c1Game.slam 0 Grid.LEFT = .error .outOfBounds := by rfl

/-! ### C2: the slam phase skips lines on non-square grids -/

/-- C2: refuted by the code. On a 2-wide, 3-high grid whose bottom row is
`[0, 2]`, the squash–combine–squash phase of `slam(LEFT)` (parameters
`(start, max_, delta) = (0, 2, 1)`, direct accessors) completes but leaves
row 2 fully unprocessed: its value 2 stays at column 1 instead of sliding
to column 0, because both `_squash` and `_combine` iterate
`for row in range(max_)` with `max_ = width = 2 < height = 3`. -/
theorem c2_slam_phase_skips_row :
    getParamsForDirection c2Grid Grid.LEFT = .ok (0, 2, 1, false) ∧
    squashGrid 0 2 1 false c2Grid = .ok c2Grid1 ∧
    combineGrid 0 2 1 false c2Grid1 = .ok c2Grid2 ∧
    squashGrid 0 2 1 false c2Grid2 = .ok c2Grid3 ∧
    c2Grid3.get 2 0 = .ok Grid.EMPTY ∧ c2Grid3.get 2 1 = .ok 2 :=
  ⟨rfl, rfl, rfl, rfl, rfl, rfl⟩

/-! ### C3: the EDGE sentinel is storable through `set` -/

/-- C3: counterexample. `set` performs only a bounds check, no value
check: on a fresh 1×1 grid, `set(0, 0, EDGE)` succeeds and the following
`get(0, 0)` returns the `EDGE` sentinel from a public cell. -/
theorem c3_set_stores_edge :
    Grid.make 1 1 = .ok c3Grid0 ∧ c3Grid0.set 0 0 Grid.EDGE = .ok c3Grid1 ∧
    c3Grid1.get 0 0 = .ok Grid.EDGE :=
  ⟨rfl, rfl, rfl⟩

/-! ### C4: best_value can decrease (negative spawn value) -/

/-- C4: counterexample. With spawn value -5 and goal 0, after `start()` the
game has `best_value = 0` and `goalMet()` is true; one completed
`slam(LEFT)` then sets `best_value = -5 < 0` (the maximum after the slam),
so `best_value` decreased across a completed slam and `goalMet()` reverted
from true to false. -/
theorem c4_best_value_decreases :
    Game.make 1 1 0 (-5) = .ok c4GameA ∧ c4GameA.start 0 0 = .ok c4GameB ∧
    c4GameB.max = 0 ∧ c4GameB.goalMet = true ∧
    c4GameB.slam 0 Grid.LEFT = .ok c4GameC ∧
    c4GameC.max = -5 ∧ c4GameC.goalMet = false :=
  ⟨rfl, rfl, rfl, rfl, rfl, rfl, rfl⟩

/-! ### C5: any_can_move performs no direction validation -/

/-- C5: counterexample. `(2, 3)` is not one of the four recognized
direction vectors, yet `any_can_move([(2, 3)])` completes normally
(returning true on a fresh 1×1 grid, whose cell is EMPTY) instead of
failing with InvalidArgument: `any_can_move` never validates its
directions. -/
theorem c5_any_can_move_unvalidated :
    ((2, 3) : Int × Int) ∉ Grid.DIRECTIONS ∧ c5Game.anyCanMove [(2, 3)] = .ok true :=
  ⟨by decide, rfl⟩

/-! ### C6: a public cell holding EDGE appears in neither sequence -/

/-- C6: counterexample. After `set(0, 0, EDGE)` on a 1×1 grid, the public
coordinate `(0, 0)` appears in neither `availableCells()` (its cell is not
EMPTY) nor `occupiedCells()` (which skips `EDGE` values), so the two
sequences do not partition the public coordinate space. -/
theorem c6_edge_cell_in_neither :
    (Grid.make 1 1 >>= fun g => g.set 0 0 Grid.EDGE) = .ok c6Grid ∧
    c6Grid.availableCells = [] ∧ c6Grid.occupiedCells = [] :=
  ⟨rfl, rfl, rfl⟩

/-! ### C7: squash∘squash ≠ squash on lines with negative values -/

/-- C7: counterexample to the "equivalently, squash composed with squash
equals a single squash" clause. On the line `[0, -3, 5, 7]` (negative
values are storable through `set`; `_squash` only moves values `> 0`), one
LEFT squash yields `[5, -3, 0, 7]` and a second squash moves the 7,
yielding `[5, -3, 7, 0]`: the second application changes the line. -/
theorem c7_squash_squash_ne_squash :
    getParamsForDirection c7Grid Grid.LEFT = .ok (0, 4, 1, false) ∧
    squashLine 0 4 1 false 0 c7Grid = .ok c7Grid1 ∧
    squashLine 0 4 1 false 0 c7Grid1 = .ok c7Grid2 ∧
    c7Grid1.get 0 2 = .ok 0 ∧ c7Grid1.get 0 3 = .ok 7 ∧
    c7Grid2.get 0 2 = .ok 7 ∧ c7Grid2.get 0 3 = .ok 0 :=
  ⟨rfl, rfl, rfl, rfl, rfl, rfl, rfl⟩

/-! ### Basic lemmas about the embedding -/

theorem except_bind_ok {α β : Type} {e : Except GameError α} {f : α → Except GameError β}
    {b : β} : (e >>= f) = .ok b ↔ ∃ a, e = .ok a ∧ f a = .ok b := by
  cases e with
  | ok a =>
    constructor
    · intro h
      exact ⟨a, rfl, h⟩
    · rintro ⟨a', ha, hf⟩
      injection ha with ha
      subst ha
      exact hf
  | error err =>
    constructor
    · intro h
      exact Except.noConfusion h
    · rintro ⟨a', ha, -⟩
      exact Except.noConfusion ha

theorem except_pure_ok {α : Type} {a b : α} :
    (pure a : Except GameError α) = .ok b ↔ a = b := by
  constructor
  · intro h
    exact Except.ok.inj h
  · intro h
    subst h
    rfl

theorem get_eq_ok {g : Grid} {j i v : Int} :
    g.get j i = .ok v ↔
      (0 ≤ j ∧ j < g.height ∧ 0 ≤ i ∧ i < g.width) ∧ v = g.cells (j + 1) (i + 1) := by
  unfold Grid.get
  split
  next h =>
    simp only [Grid.onGrid, decide_eq_true_eq] at h
    constructor
    · intro hv
      injection hv with hv
      exact ⟨by omega, hv.symm⟩
    · rintro ⟨-, rfl⟩
      rfl
  next h =>
    simp only [Grid.onGrid, decide_eq_true_eq] at h
    constructor
    · intro hv
      exact Except.noConfusion hv
    · rintro ⟨hb, -⟩
      exact absurd (by omega : (0 < i + 1 ∧ i + 1 ≤ g.width) ∧ 0 < j + 1 ∧ j + 1 ≤ g.height) h

theorem set_eq_ok {g : Grid} {j i v : Int} {g' : Grid} :
    g.set j i v = .ok g' ↔
      (0 ≤ j ∧ j < g.height ∧ 0 ≤ i ∧ i < g.width) ∧
      g' = { g with cells := fun p q => if p = j + 1 ∧ q = i + 1 then v else g.cells p q } := by
  unfold Grid.set
  split
  next h =>
    simp only [Grid.onGrid, decide_eq_true_eq] at h
    constructor
    · intro hv
      injection hv with hv
      exact ⟨by omega, hv.symm⟩
    · rintro ⟨-, rfl⟩
      rfl
  next h =>
    simp only [Grid.onGrid, decide_eq_true_eq] at h
    constructor
    · intro hv
      exact Except.noConfusion hv
    · rintro ⟨hb, -⟩
      exact absurd (by omega : (0 < i + 1 ∧ i + 1 ≤ g.width) ∧ 0 < j + 1 ∧ j + 1 ≤ g.height) h

theorem gget_eq_ok {tr : Bool} {g : Grid} {row c v : Int} :
    gget tr g row c = .ok v ↔
      (rowOK tr g row ∧ 0 ≤ c ∧ c < lineLen tr g) ∧ v = vcell tr g row c := by
  cases tr
  · simp only [gget, Bool.false_eq_true, if_false, get_eq_ok, rowOK, rowBound, lineLen, vcell]
    constructor
    · rintro ⟨⟨h1, h2, h3, h4⟩, h5⟩
      exact ⟨⟨⟨h1, h2⟩, h3, h4⟩, h5⟩
    · rintro ⟨⟨⟨h1, h2⟩, h3, h4⟩, h5⟩
      exact ⟨⟨h1, h2, h3, h4⟩, h5⟩
  · simp only [gget, if_true, get_eq_ok, rowOK, rowBound, lineLen, vcell]
    constructor
    · rintro ⟨⟨h1, h2, h3, h4⟩, h5⟩
      exact ⟨⟨⟨h3, h4⟩, h1, h2⟩, h5⟩
    · rintro ⟨⟨⟨h3, h4⟩, h1, h2⟩, h5⟩
      exact ⟨⟨h1, h2, h3, h4⟩, h5⟩

theorem gget_ok_of_bounds {tr : Bool} {g : Grid} {row c : Int}
    (h1 : rowOK tr g row) (h2 : 0 ≤ c) (h3 : c < lineLen tr g) :
    gget tr g row c = .ok (vcell tr g row c) :=
  gget_eq_ok.mpr ⟨⟨h1, h2, h3⟩, rfl⟩

theorem gset_eq_ok {tr : Bool} {g : Grid} {row c v : Int} {g' : Grid} :
    gset tr g row c v = .ok g' ↔
      (rowOK tr g row ∧ 0 ≤ c ∧ c < lineLen tr g) ∧
      g' = { g with cells := fun p q =>
               if p = (vback tr row c).1 ∧ q = (vback tr row c).2 then v else g.cells p q } := by
  cases tr
  · simp only [gset, Bool.false_eq_true, if_false, set_eq_ok, rowOK, rowBound, lineLen, vback]
    constructor
    · rintro ⟨⟨h1, h2, h3, h4⟩, h5⟩
      exact ⟨⟨⟨h1, h2⟩, h3, h4⟩, h5⟩
    · rintro ⟨⟨⟨h1, h2⟩, h3, h4⟩, h5⟩
      exact ⟨⟨h1, h2, h3, h4⟩, h5⟩
  · simp only [gset, if_true, set_eq_ok, rowOK, rowBound, lineLen, vback]
    constructor
    · rintro ⟨⟨h1, h2, h3, h4⟩, h5⟩
      exact ⟨⟨⟨h3, h4⟩, h1, h2⟩, h5⟩
    · rintro ⟨⟨⟨h3, h4⟩, h1, h2⟩, h5⟩
      exact ⟨⟨h1, h2, h3, h4⟩, h5⟩

theorem gset_bounds {tr : Bool} {g : Grid} {row c v : Int} {g' : Grid}
    (h : gset tr g row c v = .ok g') :
    rowOK tr g row ∧ 0 ≤ c ∧ c < lineLen tr g :=
  (gset_eq_ok.mp h).1

theorem gset_dims {tr : Bool} {g : Grid} {row c v : Int} {g' : Grid}
    (h : gset tr g row c v = .ok g') :
    g'.width = g.width ∧ g'.height = g.height := by
  obtain ⟨-, rfl⟩ := gset_eq_ok.mp h
  exact ⟨rfl, rfl⟩

theorem gset_cells {tr : Bool} {g : Grid} {row c v : Int} {g' : Grid}
    (h : gset tr g row c v = .ok g') (p q : Int) :
    g'.cells p q =
      if p = (vback tr row c).1 ∧ q = (vback tr row c).2 then v else g.cells p q := by
  obtain ⟨-, rfl⟩ := gset_eq_ok.mp h
  rfl

theorem vcell_vback {tr : Bool} {g : Grid} {row c : Int} :
    vcell tr g row c = g.cells (vback tr row c).1 (vback tr row c).2 := by
  cases tr <;> rfl

theorem vback_inj {tr : Bool} {row c c' : Int}
    (h : vback tr row c = vback tr row c') : c = c' := by
  cases tr <;> simp [vback, Prod.ext_iff] at h <;> omega

theorem vback_row_eq {tr : Bool} {row row' c c' : Int}
    (h : vback tr row c = vback tr row' c') : row = row' := by
  cases tr <;> simp [vback, Prod.ext_iff] at h <;> omega

theorem vback_bounds {tr : Bool} {g : Grid} {row c : Int}
    (h1 : rowOK tr g row) (h2 : 0 ≤ c) (h3 : c < lineLen tr g) :
    1 ≤ (vback tr row c).1 ∧ (vback tr row c).1 ≤ g.height ∧
    1 ≤ (vback tr row c).2 ∧ (vback tr row c).2 ≤ g.width := by
  cases tr <;> simp [vback, rowOK, rowBound, lineLen] at * <;> omega

theorem gset_vcell {tr : Bool} {g : Grid} {row c v : Int} {g' : Grid}
    (h : gset tr g row c v = .ok g') (c' : Int) :
    vcell tr g' row c' = if c' = c then v else vcell tr g row c' := by
  by_cases hc : c' = c
  · subst hc
    rw [vcell_vback, gset_cells h, if_pos ⟨rfl, rfl⟩]
    simp
  · rw [vcell_vback, gset_cells h, if_neg, if_neg hc, vcell_vback]
    rintro ⟨ha, hb⟩
    exact hc (vback_inj (Prod.ext ha hb))

theorem gset_vcell_other_row {tr : Bool} {g : Grid} {row c v : Int} {g' : Grid}
    (h : gset tr g row c v = .ok g') {row' : Int} (hrow : row' ≠ row) (c' : Int) :
    vcell tr g' row' c' = vcell tr g row' c' := by
  rw [vcell_vback, gset_cells h, if_neg, vcell_vback]
  rintro ⟨ha, hb⟩
  exact hrow (vback_row_eq (Prod.ext ha hb))

theorem gset_nonneg {tr : Bool} {g : Grid} {row c v : Int} {g' : Grid}
    (h : gset tr g row c v = .ok g') (hg : NonnegGrid g) (hv : 0 ≤ v) : NonnegGrid g' := by
  intro p q hp1 hp2 hq1 hq2
  obtain ⟨hw, hh⟩ := gset_dims h
  rw [hh] at hp2
  rw [hw] at hq2
  rw [gset_cells h]
  split
  · exact hv
  · exact hg p q hp1 hp2 hq1 hq2

theorem hasCellGe_mono {g : Grid} {m m' : Int} (h : m' ≤ m) :
    HasCellGe g m → HasCellGe g m' := by
  rintro ⟨j, i, h1, h2, h3, h4, h5⟩
  exact ⟨j, i, h1, h2, h3, h4, le_trans h h5⟩

/-! ### The write pairs of `_squash` and `_combine` preserve `HasCellGe` -/

theorem move_pair_hasCellGe {tr : Bool} {g g1 g2 : Grid} {row le curr cv : Int}
    (h1 : gset tr g row le cv = .ok g1)
    (h2 : gset tr g1 row curr Grid.EMPTY = .ok g2)
    (hle : vcell tr g row le = Grid.EMPTY) (hcurr : vcell tr g row curr = cv)
    (hpos : 0 < cv) (m : Int) (hm : HasCellGe g m) : HasCellGe g2 m := by
  obtain ⟨hb1, hc1, hc1'⟩ := gset_bounds h1
  obtain ⟨hw1, hh1⟩ := gset_dims h1
  obtain ⟨hw2, hh2⟩ := gset_dims h2
  have hblb := vback_bounds hb1 hc1 hc1'
  obtain ⟨j, i, hj1, hj2, hi1, hi2, hv⟩ := hm
  have hcne : le ≠ curr := by
    intro he
    rw [he, hcurr] at hle
    rw [hle] at hpos
    simp [Grid.EMPTY] at hpos
  have hbne : ¬((vback tr row le).1 = (vback tr row curr).1 ∧
               (vback tr row le).2 = (vback tr row curr).2) := by
    rintro ⟨ha, hb⟩
    exact hcne (vback_inj (Prod.ext ha hb))
  by_cases hA : j = (vback tr row curr).1 ∧ i = (vback tr row curr).2
  · refine ⟨(vback tr row le).1, (vback tr row le).2, by omega, by omega, by omega, by omega, ?_⟩
    rw [gset_cells h2, if_neg hbne, gset_cells h1, if_pos ⟨rfl, rfl⟩]
    obtain ⟨hA1, hA2⟩ := hA
    rw [hA1, hA2, ← vcell_vback, hcurr] at hv
    exact hv
  · by_cases hB : j = (vback tr row le).1 ∧ i = (vback tr row le).2
    · obtain ⟨hB1, hB2⟩ := hB
      rw [hB1, hB2, ← vcell_vback, hle] at hv
      refine ⟨(vback tr row le).1, (vback tr row le).2, by omega, by omega, by omega, by omega, ?_⟩
      rw [gset_cells h2, if_neg hbne, gset_cells h1, if_pos ⟨rfl, rfl⟩]
      simp [Grid.EMPTY] at hv
      omega
    · refine ⟨j, i, by omega, by omega, by omega, by omega, ?_⟩
      rw [gset_cells h2, if_neg hA, gset_cells h1, if_neg hB]
      exact hv

theorem combine_pair_hasCellGe {tr : Bool} {g g1 g2 : Grid} {row curr delta cv : Int}
    (h1 : gset tr g row curr (cv * 2) = .ok g1)
    (h2 : gset tr g1 row (curr + delta) Grid.EMPTY = .ok g2)
    (hcurr : vcell tr g row curr = cv) (hnext : vcell tr g row (curr + delta) = cv)
    (hdel : delta ≠ 0) (hnn : 0 ≤ cv) (m : Int) (hm : HasCellGe g m) : HasCellGe g2 m := by
  obtain ⟨hb1, hc1, hc1'⟩ := gset_bounds h1
  obtain ⟨hw1, hh1⟩ := gset_dims h1
  obtain ⟨hw2, hh2⟩ := gset_dims h2
  have hblb := vback_bounds hb1 hc1 hc1'
  obtain ⟨j, i, hj1, hj2, hi1, hi2, hv⟩ := hm
  have hcne : curr ≠ curr + delta := by omega
  have hbne : ¬((vback tr row curr).1 = (vback tr row (curr + delta)).1 ∧
               (vback tr row curr).2 = (vback tr row (curr + delta)).2) := by
    rintro ⟨ha, hb⟩
    exact hcne (vback_inj (Prod.ext ha hb))
  by_cases hA : j = (vback tr row curr).1 ∧ i = (vback tr row curr).2
  · refine ⟨(vback tr row curr).1, (vback tr row curr).2, by omega, by omega, by omega, by omega, ?_⟩
    rw [gset_cells h2, if_neg hbne, gset_cells h1, if_pos ⟨rfl, rfl⟩]
    obtain ⟨hA1, hA2⟩ := hA
    rw [hA1, hA2, ← vcell_vback, hcurr] at hv
    omega
  · by_cases hB : j = (vback tr row (curr + delta)).1 ∧ i = (vback tr row (curr + delta)).2
    · obtain ⟨hB1, hB2⟩ := hB
      rw [hB1, hB2, ← vcell_vback, hnext] at hv
      refine ⟨(vback tr row curr).1, (vback tr row curr).2, by omega, by omega, by omega, by omega, ?_⟩
      rw [gset_cells h2, if_neg hbne, gset_cells h1, if_pos ⟨rfl, rfl⟩]
      omega
    · refine ⟨j, i, by omega, by omega, by omega, by omega, ?_⟩
      rw [gset_cells h2, if_neg hB, gset_cells h1, if_neg hA]
      exact hv

/-! ### Invariant preservation through the `_squash` and `_combine` loops -/

theorem squashLoop_inv {tr : Bool} {max_ delta row : Int} :
    ∀ (fuel : Nat) (curr le : Int) (g g' : Grid),
      squashLoop tr max_ delta row fuel curr le g = .ok g' →
      g'.width = g.width ∧ g'.height = g.height ∧
      (NonnegGrid g → NonnegGrid g') ∧
      (∀ m, HasCellGe g m → HasCellGe g' m) := by
  intro fuel
  induction fuel with
  | zero =>
    intro curr le g g' h
    simp only [squashLoop] at h
    obtain rfl := except_pure_ok.mp h
    exact ⟨rfl, rfl, fun x => x, fun m x => x⟩
  | succ fuel ih =>
    intro curr le g g' h
    simp only [squashLoop] at h
    split at h
    · obtain ⟨lv, hlv, h⟩ := except_bind_ok.mp h
      split at h
      next hlvE =>
        obtain ⟨cv, hcv, h⟩ := except_bind_ok.mp h
        split at h
        next hcvP =>
          obtain ⟨g1, hg1, h⟩ := except_bind_ok.mp h
          obtain ⟨g2, hg2, h⟩ := except_bind_ok.mp h
          obtain ⟨hw1, hh1⟩ := gset_dims hg1
          obtain ⟨hw2, hh2⟩ := gset_dims hg2
          obtain ⟨hwI, hhI, hnnI, hgeI⟩ := ih _ _ g2 g' h
          have hleE : vcell tr g row le = Grid.EMPTY := by
            rw [← (gget_eq_ok.mp hlv).2]
            exact hlvE
          have hcurrV : vcell tr g row curr = cv := ((gget_eq_ok.mp hcv).2).symm
          refine ⟨by omega, by omega, ?_, ?_⟩
          · intro hg
            exact hnnI (gset_nonneg hg2 (gset_nonneg hg1 hg (le_of_lt hcvP))
              (by simp [Grid.EMPTY]))
          · intro m hm
            exact hgeI m (move_pair_hasCellGe hg1 hg2 hleE hcurrV hcvP m hm)
        next =>
          exact ih _ _ g g' h
      next =>
        exact ih _ _ g g' h
    · obtain rfl := except_pure_ok.mp h
      exact ⟨rfl, rfl, fun x => x, fun m x => x⟩

theorem combineLoop_inv {tr : Bool} {start max_ delta row : Int}
    (hdel : delta ≠ 0) :
    ∀ (fuel : Nat) (curr : Int) (g g' : Grid),
      combineLoop tr start max_ delta row fuel curr g = .ok g' →
      g'.width = g.width ∧ g'.height = g.height ∧
      (NonnegGrid g → NonnegGrid g' ∧ (∀ m, HasCellGe g m → HasCellGe g' m)) := by
  intro fuel
  induction fuel with
  | zero =>
    intro curr g g' h
    simp only [combineLoop] at h
    obtain rfl := except_pure_ok.mp h
    exact ⟨rfl, rfl, fun x => ⟨x, fun m y => y⟩⟩
  | succ fuel ih =>
    intro curr g g' h
    simp only [combineLoop] at h
    split at h
    · obtain ⟨cv, hcv, h⟩ := except_bind_ok.mp h
      obtain ⟨nv, hnv, h⟩ := except_bind_ok.mp h
      split at h
      next hEq =>
        obtain ⟨g1, hg1, h⟩ := except_bind_ok.mp h
        obtain ⟨g2, hg2, h⟩ := except_bind_ok.mp h
        obtain ⟨hw1, hh1⟩ := gset_dims hg1
        obtain ⟨hw2, hh2⟩ := gset_dims hg2
        obtain ⟨hwI, hhI, hrestI⟩ := ih _ g2 g' h
        obtain ⟨hbcv, hccv, hccv'⟩ := (gget_eq_ok.mp hcv).1
        have hcurrV : vcell tr g row curr = cv := ((gget_eq_ok.mp hcv).2).symm
        have hnextV : vcell tr g row (curr + delta) = cv := by
          rw [← (gget_eq_ok.mp hnv).2]
          exact hEq.2.symm
        refine ⟨by omega, by omega, ?_⟩
        intro hg
        have hcvnn : 0 ≤ cv := by
          rw [← hcurrV, vcell_vback]
          have hb := vback_bounds hbcv hccv hccv'
          exact hg _ _ (by omega) (by omega) (by omega) (by omega)
        have hg1mul : gset tr g row curr (cv * 2) = .ok g1 := hg1
        have hnn2 : NonnegGrid g2 :=
          gset_nonneg hg2 (gset_nonneg hg1mul hg (by omega)) (by simp [Grid.EMPTY])
        obtain ⟨hnnI, hgeI⟩ := hrestI hnn2
        refine ⟨hnnI, ?_⟩
        intro m hm
        exact hgeI m (combine_pair_hasCellGe hg1mul hg2 hcurrV hnextV hdel hcvnn m hm)
      next =>
        exact ih _ g g' h
    · obtain rfl := except_pure_ok.mp h
      exact ⟨rfl, rfl, fun x => ⟨x, fun m y => y⟩⟩

/-! ### Membership in the cell enumerations -/

theorem mem_cellIndices {g : Grid} {a b : Int} :
    (a, b) ∈ g.cellIndices ↔ 1 ≤ a ∧ a ≤ g.height ∧ 1 ≤ b ∧ b ≤ g.width := by
  constructor
  · intro hx
    obtain ⟨j, hj, hx⟩ := List.mem_flatMap.mp hx
    obtain ⟨i, hi, he⟩ := List.mem_map.mp hx
    rw [List.mem_range] at hj hi
    injection he with h1 h2
    omega
  · rintro ⟨h1, h2, h3, h4⟩
    refine List.mem_flatMap.mpr ⟨(a - 1).toNat, List.mem_range.mpr (by omega),
      List.mem_map.mpr ⟨(b - 1).toNat, List.mem_range.mpr (by omega), ?_⟩⟩
    have ha : ((a - 1).toNat : Int) + 1 = a := by omega
    have hb : ((b - 1).toNat : Int) + 1 = b := by omega
    rw [ha, hb]

theorem mem_availableCells {g : Grid} {r c : Int} :
    (r, c) ∈ g.availableCells ↔
      (0 ≤ r ∧ r < g.height ∧ 0 ≤ c ∧ c < g.width) ∧
      g.cells (r + 1) (c + 1) = Grid.EMPTY := by
  simp only [Grid.availableCells, List.mem_filterMap]
  constructor
  · rintro ⟨⟨a, b⟩, hab, hif⟩
    rw [mem_cellIndices] at hab
    replace hif : (if g.cells a b = Grid.EMPTY then some (a - 1, b - 1) else none) =
        some (r, c) := hif
    split at hif
    next he =>
      injection hif with hif
      injection hif with hr hc
      subst hr
      subst hc
      refine ⟨by omega, ?_⟩
      have ha : a - 1 + 1 = a := by omega
      have hb : b - 1 + 1 = b := by omega
      rw [ha, hb]
      exact he
    next =>
      exact Option.noConfusion hif
  · rintro ⟨⟨h1, h2, h3, h4⟩, h5⟩
    refine ⟨(r + 1, c + 1), mem_cellIndices.mpr (by omega), ?_⟩
    show (if g.cells (r + 1) (c + 1) = Grid.EMPTY then some (r + 1 - 1, c + 1 - 1) else none) =
      some (r, c)
    rw [if_pos h5]
    have ha : r + 1 - 1 = r := by omega
    have hb : c + 1 - 1 = c := by omega
    rw [ha, hb]

theorem mem_occupiedCells {g : Grid} {r c : Int} :
    (r, c) ∈ g.occupiedCells ↔
      (0 ≤ r ∧ r < g.height ∧ 0 ≤ c ∧ c < g.width) ∧
      g.cells (r + 1) (c + 1) ≠ Grid.EMPTY ∧ g.cells (r + 1) (c + 1) ≠ Grid.EDGE := by
  simp only [Grid.occupiedCells, List.mem_filterMap]
  constructor
  · rintro ⟨⟨a, b⟩, hab, hif⟩
    rw [mem_cellIndices] at hab
    replace hif : (if g.cells a b ≠ Grid.EMPTY ∧ g.cells a b ≠ Grid.EDGE
        then some (a - 1, b - 1) else none) = some (r, c) := hif
    split at hif
    next he =>
      injection hif with hif
      injection hif with hr hc
      subst hr
      subst hc
      refine ⟨by omega, ?_⟩
      have ha : a - 1 + 1 = a := by omega
      have hb : b - 1 + 1 = b := by omega
      rw [ha, hb]
      exact he
    next =>
      exact Option.noConfusion hif
  · rintro ⟨⟨h1, h2, h3, h4⟩, h5⟩
    refine ⟨(r + 1, c + 1), mem_cellIndices.mpr (by omega), ?_⟩
    show (if g.cells (r + 1) (c + 1) ≠ Grid.EMPTY ∧ g.cells (r + 1) (c + 1) ≠ Grid.EDGE
      then some (r + 1 - 1, c + 1 - 1) else none) = some (r, c)
    rw [if_pos h5]
    have ha : r + 1 - 1 = r := by omega
    have hb : c + 1 - 1 = c := by omega
    rw [ha, hb]

theorem mem_cellValues {g : Grid} {x : Int} :
    x ∈ g.cellValues ↔
      ∃ j i : Int, 1 ≤ j ∧ j ≤ g.height ∧ 1 ≤ i ∧ i ≤ g.width ∧ x = g.cells j i := by
  constructor
  · intro hx
    obtain ⟨j, hj, hx⟩ := List.mem_flatMap.mp hx
    obtain ⟨i, hi, he⟩ := List.mem_map.mp hx
    rw [List.mem_range] at hj hi
    exact ⟨(j : Int) + 1, (i : Int) + 1, by omega, by omega, by omega, by omega, he.symm⟩
  · rintro ⟨j, i, h1, h2, h3, h4, h5⟩
    refine List.mem_flatMap.mpr ⟨(j - 1).toNat, List.mem_range.mpr (by omega),
      List.mem_map.mpr ⟨(i - 1).toNat, List.mem_range.mpr (by omega), ?_⟩⟩
    have ha : ((j - 1).toNat : Int) + 1 = j := by omega
    have hb : ((i - 1).toNat : Int) + 1 = i := by omega
    rw [ha, hb]
    exact h5.symm

/-! ### `listMax` and `gridMax` -/

theorem le_foldl_max : ∀ (l : List Int) (a : Int), a ≤ l.foldl max a := by
  intro l
  induction l with
  | nil => intro a; exact le_refl a
  | cons x xs ih => intro a; exact le_trans (le_max_left a x) (ih (max a x))

theorem mem_le_foldl_max : ∀ (l : List Int) (a x : Int), x ∈ l → x ≤ l.foldl max a := by
  intro l
  induction l with
  | nil =>
    intro a x hx
    exact absurd hx (List.not_mem_nil x)
  | cons y ys ih =>
    intro a x hx
    rcases List.mem_cons.mp hx with h | h
    · subst h
      exact le_trans (le_max_right a x) (le_foldl_max ys (max a x))
    · exact ih (max a y) x h

theorem le_listMax {l : List Int} {x : Int} (h : x ∈ l) : x ≤ listMax l := by
  cases l with
  | nil => exact absurd h (List.not_mem_nil x)
  | cons y ys =>
    rcases List.mem_cons.mp h with h' | h'
    · subst h'
      exact le_foldl_max ys x
    · exact mem_le_foldl_max ys y x h'

theorem foldl_max_mem : ∀ (l : List Int) (a : Int), l.foldl max a = a ∨ l.foldl max a ∈ l := by
  intro l
  induction l with
  | nil => intro a; exact Or.inl rfl
  | cons y ys ih =>
    intro a
    rcases ih (max a y) with h | h
    · rcases max_choice a y with hm | hm
      · exact Or.inl (by rw [List.foldl_cons, h, hm])
      · exact Or.inr (by rw [List.foldl_cons, h, hm]; exact List.mem_cons_self y ys)
    · exact Or.inr (List.mem_cons_of_mem y h)

theorem listMax_mem {l : List Int} (h : l ≠ []) : listMax l ∈ l := by
  cases l with
  | nil => exact absurd rfl h
  | cons y ys =>
    rcases foldl_max_mem ys y with h' | h'
    · rw [listMax, h']
      exact List.mem_cons_self y ys
    · exact List.mem_cons_of_mem y h'

theorem hasCellGe_gridMax {g : Grid} (hw : 0 < g.width) (hh : 0 < g.height) :
    HasCellGe g (gridMax g) := by
  have hmem : g.cells 1 1 ∈ g.cellValues :=
    mem_cellValues.mpr ⟨1, 1, by omega, by omega, by omega, by omega, rfl⟩
  have hne : g.cellValues ≠ [] := by
    intro h0
    rw [h0] at hmem
    exact absurd hmem (List.not_mem_nil _)
  obtain ⟨j, i, h1, h2, h3, h4, h5⟩ := mem_cellValues.mp (listMax_mem hne)
  exact ⟨j, i, h1, h2, h3, h4, le_of_eq h5⟩

theorem le_gridMax_of_hasCellGe {g : Grid} {m : Int} (h : HasCellGe g m) : m ≤ gridMax g := by
  obtain ⟨j, i, h1, h2, h3, h4, h5⟩ := h
  exact le_trans h5 (le_listMax (mem_cellValues.mpr ⟨j, i, h1, h2, h3, h4, rfl⟩))

theorem gridMax_nonneg {g : Grid} (hg : NonnegGrid g) (hw : 0 < g.width) (hh : 0 < g.height) :
    0 ≤ gridMax g :=
  le_trans (hg 1 1 (by omega) (by omega) (by omega) (by omega))
    (le_listMax (mem_cellValues.mpr ⟨1, 1, by omega, by omega, by omega, by omega, rfl⟩))

/-! ### Generic fold lemma and grid-level invariants -/

theorem foldlM_ok_inv {α : Type} (P : Grid → Prop) (step : Grid → α → Except GameError Grid)
    (hstep : ∀ x g g', P g → step g x = .ok g' → P g') :
    ∀ (l : List α) (g g' : Grid), P g → l.foldlM step g = .ok g' → P g' := by
  intro l
  induction l with
  | nil =>
    intro g g' hP h
    simp only [List.foldlM_nil] at h
    obtain rfl := except_pure_ok.mp h
    exact hP
  | cons x xs ih =>
    intro g g' hP h
    rw [List.foldlM_cons] at h
    obtain ⟨g1, h1, h2⟩ := except_bind_ok.mp h
    exact ih g1 g' (hstep x g g1 hP h1) h2

theorem squashGrid_inv {start max_ delta : Int} {tr : Bool} {g g' : Grid}
    (h : squashGrid start max_ delta tr g = .ok g') :
    g'.width = g.width ∧ g'.height = g.height ∧
    (NonnegGrid g → NonnegGrid g') ∧ (∀ m, HasCellGe g m → HasCellGe g' m) := by
  refine foldlM_ok_inv
    (fun gg => gg.width = g.width ∧ gg.height = g.height ∧
      (NonnegGrid g → NonnegGrid gg) ∧ (∀ m, HasCellGe g m → HasCellGe gg m))
    _ ?_ _ g g' ⟨rfl, rfl, fun x => x, fun m x => x⟩ h
  intro row gg gg' hP hstep
  simp only [squashLine] at hstep
  obtain ⟨hw, hh, hnn, hge⟩ := squashLoop_inv _ _ _ gg gg' hstep
  obtain ⟨hw0, hh0, hnn0, hge0⟩ := hP
  exact ⟨by omega, by omega, fun x => hnn (hnn0 x), fun m x => hge m (hge0 m x)⟩

theorem combineGrid_inv {start max_ delta : Int} {tr : Bool} {g g' : Grid}
    (hdel : delta ≠ 0)
    (h : combineGrid start max_ delta tr g = .ok g') :
    g'.width = g.width ∧ g'.height = g.height ∧
    (NonnegGrid g → NonnegGrid g' ∧ (∀ m, HasCellGe g m → HasCellGe g' m)) := by
  refine foldlM_ok_inv
    (fun gg => gg.width = g.width ∧ gg.height = g.height ∧
      (NonnegGrid g → NonnegGrid gg ∧ (∀ m, HasCellGe g m → HasCellGe gg m)))
    _ ?_ _ g g' ⟨rfl, rfl, fun x => ⟨x, fun m y => y⟩⟩ h
  intro row gg gg' hP hstep
  simp only [combineLine] at hstep
  obtain ⟨hw, hh, hrest⟩ := combineLoop_inv hdel _ _ gg gg' hstep
  obtain ⟨hw0, hh0, hrest0⟩ := hP
  refine ⟨by omega, by omega, ?_⟩
  intro hg
  obtain ⟨hnn0, hge0⟩ := hrest0 hg
  obtain ⟨hnn, hge⟩ := hrest hnn0
  exact ⟨hnn, fun m x => hge m (hge0 m x)⟩

/-! ### `_place_random`, `start`, `__init__` -/

theorem set_cells {g : Grid} {j i v : Int} {g' : Grid} (h : g.set j i v = .ok g') (p q : Int) :
    g'.cells p q = if p = j + 1 ∧ q = i + 1 then v else g.cells p q := by
  obtain ⟨-, rfl⟩ := set_eq_ok.mp h
  rfl

theorem set_dims {g : Grid} {j i v : Int} {g' : Grid} (h : g.set j i v = .ok g') :
    g'.width = g.width ∧ g'.height = g.height := by
  obtain ⟨-, rfl⟩ := set_eq_ok.mp h
  exact ⟨rfl, rfl⟩

theorem set_ok_of_bounds {g : Grid} {j i : Int} (v : Int)
    (hj : 0 ≤ j) (hj' : j < g.height) (hi : 0 ≤ i) (hi' : i < g.width) :
    ∃ g', g.set j i v = .ok g' :=
  ⟨_, set_eq_ok.mpr ⟨⟨hj, hj', hi, hi'⟩, rfl⟩⟩

theorem mem_availableCells_facts {g : Grid} {p : Int × Int} (h : p ∈ g.availableCells) :
    (0 ≤ p.1 ∧ p.1 < g.height ∧ 0 ≤ p.2 ∧ p.2 < g.width) ∧
    g.cells (p.1 + 1) (p.2 + 1) = Grid.EMPTY := by
  obtain ⟨a, b⟩ := p
  exact mem_availableCells.mp h

theorem placeRandom_ok_cases {gm : Game} {k : Nat} {gm' : Game}
    (h : gm.placeRandom k = .ok gm') :
    (gm.grid.availableCells = [] ∧ gm' = gm) ∨
    (gm.grid.availableCells ≠ [] ∧
      gm.grid.availableCells.getD (k % gm.grid.availableCells.length) (0, 0) ∈
        gm.grid.availableCells ∧
      gm.grid.set (gm.grid.availableCells.getD (k % gm.grid.availableCells.length) (0, 0)).1
        (gm.grid.availableCells.getD (k % gm.grid.availableCells.length) (0, 0)).2
        gm.initial_value = .ok gm'.grid ∧
      gm'.initial_value = gm.initial_value ∧ gm'.goal = gm.goal ∧ gm'.max = gm.max) := by
  simp only [Game.placeRandom] at h
  split at h
  next hemp =>
    obtain rfl := except_pure_ok.mp h
    exact Or.inl ⟨List.isEmpty_iff.mp hemp, rfl⟩
  next hemp =>
    have hne : gm.grid.availableCells ≠ [] := by
      intro h0
      exact hemp (List.isEmpty_iff.mpr h0)
    obtain ⟨g1, hset, hp⟩ := except_bind_ok.mp h
    obtain rfl := except_pure_ok.mp hp
    have hlt : k % gm.grid.availableCells.length < gm.grid.availableCells.length :=
      Nat.mod_lt k (List.length_pos.mpr hne)
    have hmem : gm.grid.availableCells.getD (k % gm.grid.availableCells.length) (0, 0) ∈
        gm.grid.availableCells := by
      rw [List.getD_eq_getElem _ _ hlt]
      exact List.getElem_mem hlt
    exact Or.inr ⟨hne, hmem, hset, rfl, rfl, rfl⟩

theorem placeRandom_never_errors (gm : Game) (k : Nat) :
    ∃ gm', gm.placeRandom k = .ok gm' := by
  simp only [Game.placeRandom]
  split
  next => exact ⟨gm, rfl⟩
  next hemp =>
    have hne : gm.grid.availableCells ≠ [] := by
      intro h0
      exact hemp (List.isEmpty_iff.mpr h0)
    have hlt : k % gm.grid.availableCells.length < gm.grid.availableCells.length :=
      Nat.mod_lt k (List.length_pos.mpr hne)
    have hmem : gm.grid.availableCells.getD (k % gm.grid.availableCells.length) (0, 0) ∈
        gm.grid.availableCells := by
      rw [List.getD_eq_getElem _ _ hlt]
      exact List.getElem_mem hlt
    obtain ⟨⟨hb1, hb2, hb3, hb4⟩, -⟩ := mem_availableCells_facts hmem
    obtain ⟨g', hg'⟩ := set_ok_of_bounds gm.initial_value hb1 hb2 hb3 hb4
    exact ⟨_, by rw [hg']; rfl⟩

theorem placeRandom_inv {gm : Game} {k : Nat} {gm' : Game}
    (h : gm.placeRandom k = .ok gm') (hiv : 0 ≤ gm.initial_value) :
    gm'.grid.width = gm.grid.width ∧ gm'.grid.height = gm.grid.height ∧
    (NonnegGrid gm.grid → NonnegGrid gm'.grid) ∧
    (∀ m, HasCellGe gm.grid m → HasCellGe gm'.grid m) ∧
    gm'.initial_value = gm.initial_value ∧ gm'.goal = gm.goal ∧ gm'.max = gm.max := by
  rcases placeRandom_ok_cases h with ⟨-, rfl⟩ | ⟨-, hmem, hset, hf1, hf2, hf3⟩
  · exact ⟨rfl, rfl, fun x => x, fun m x => x, rfl, rfl, rfl⟩
  · obtain ⟨hw, hh⟩ := set_dims hset
    obtain ⟨⟨hb1, hb2, hb3, hb4⟩, hempty⟩ := mem_availableCells_facts hmem
    refine ⟨hw, hh, ?_, ?_, hf1, hf2, hf3⟩
    · intro hg p' q' h1 h2 h3 h4
      rw [hh] at h2
      rw [hw] at h4
      rw [set_cells hset]
      split
      · exact hiv
      · exact hg p' q' h1 h2 h3 h4
    · rintro m ⟨j, i, h1, h2, h3, h4, h5⟩
      refine ⟨j, i, by omega, by omega, by omega, by omega, ?_⟩
      rw [set_cells hset]
      split
      next he =>
        obtain ⟨he1, he2⟩ := he
        rw [he1, he2, hempty] at h5
        simp only [Grid.EMPTY] at h5
        omega
      next =>
        exact h5

theorem start_facts {gm : Game} {k1 k2 : Nat} {gm' : Game}
    (h : gm.start k1 k2 = .ok gm') (hiv : 0 ≤ gm.initial_value) :
    gm'.grid.width = gm.grid.width ∧ gm'.grid.height = gm.grid.height ∧
    (NonnegGrid gm.grid → NonnegGrid gm'.grid) ∧
    gm'.initial_value = gm.initial_value ∧ gm'.goal = gm.goal ∧ gm'.max = gm.max := by
  unfold Game.start at h
  obtain ⟨gm1, h1, h2⟩ := except_bind_ok.mp h
  obtain ⟨hw1, hh1, hnn1, hge1, hf1, hf2, hf3⟩ := placeRandom_inv h1 hiv
  obtain ⟨hw2, hh2, hnn2, hge2, hg1, hg2, hg3⟩ := placeRandom_inv h2 (by rw [hf1]; exact hiv)
  exact ⟨by omega, by omega, fun x => hnn2 (hnn1 x), by omega, by omega, by omega⟩

theorem getParams_cases {g : Grid} {d : Int × Int} {start max_ delta : Int} {tr : Bool}
    (h : getParamsForDirection g d = .ok (start, max_, delta, tr)) :
    (delta = 1 ∧ start = 0 ∨ delta = -1 ∧ start = max_ - 1) ∧
    max_ = lineLen tr g ∧
    (d = Grid.LEFT ∨ d = Grid.RIGHT ∨ d = Grid.UP ∨ d = Grid.DOWN) := by
  unfold getParamsForDirection at h
  obtain ⟨mt, h1, h⟩ := except_bind_ok.mp h
  obtain ⟨m, t⟩ := mt
  obtain ⟨ds, h2, h⟩ := except_bind_ok.mp h
  obtain ⟨dl, st⟩ := ds
  have hp := except_pure_ok.mp h
  injection hp with e1 hp
  injection hp with e2 hp
  injection hp with e3 e4
  subst e1
  subst e2
  subst e3
  subst e4
  have hds : dl = 1 ∧ st = 0 ∨ dl = -1 ∧ st = m - 1 := by
    split at h2
    · have hq := except_pure_ok.mp h2
      injection hq with f1 f2
      exact Or.inl ⟨f1.symm, f2.symm⟩
    · split at h2
      · have hq := except_pure_ok.mp h2
        injection hq with f1 f2
        exact Or.inr ⟨f1.symm, f2.symm⟩
      · exact Except.noConfusion h2
  have hmt : (m = g.width ∧ t = false ∧ (d = Grid.LEFT ∨ d = Grid.RIGHT)) ∨
      (m = g.height ∧ t = true ∧ (d = Grid.UP ∨ d = Grid.DOWN)) := by
    split at h1
    next hd =>
      have hq := except_pure_ok.mp h1
      injection hq with f1 f2
      exact Or.inl ⟨f1.symm, f2.symm, hd⟩
    next hd =>
      split at h1
      next hd' =>
        have hq := except_pure_ok.mp h1
        injection hq with f1 f2
        exact Or.inr ⟨f1.symm, f2.symm, hd'⟩
      next =>
        exact Except.noConfusion h1
  refine ⟨hds, ?_, ?_⟩
  · rcases hmt with ⟨hm, ht, -⟩ | ⟨hm, ht, -⟩ <;> subst ht <;> simp [lineLen, hm]
  · rcases hmt with ⟨-, -, hd⟩ | ⟨-, -, hd⟩ <;> tauto

theorem slam_step {gm : Game} {k : Nat} {d : Int × Int} {gm' : Game}
    (h : gm.slam k d = .ok gm')
    (hiv : 0 ≤ gm.initial_value) (hw : 0 < gm.grid.width) (hh : 0 < gm.grid.height)
    (hnn : NonnegGrid gm.grid) (hmax : gm.max ≤ gridMax gm.grid) :
    gm'.grid.width = gm.grid.width ∧ gm'.grid.height = gm.grid.height ∧
    NonnegGrid gm'.grid ∧ gm'.max = gridMax gm'.grid ∧ gm.max ≤ gm'.max ∧
    gm'.initial_value = gm.initial_value ∧ gm'.goal = gm.goal := by
  unfold Game.slam at h
  obtain ⟨u, hval, h⟩ := except_bind_ok.mp h
  obtain ⟨p4, hparams, h⟩ := except_bind_ok.mp h
  obtain ⟨start, max_, delta, tr⟩ := p4
  obtain ⟨g1, hsq1, h⟩ := except_bind_ok.mp h
  obtain ⟨g2, hcb, h⟩ := except_bind_ok.mp h
  obtain ⟨g3, hsq2, h⟩ := except_bind_ok.mp h
  obtain ⟨gm1, hpl, h⟩ := except_bind_ok.mp h
  obtain rfl := except_pure_ok.mp h
  obtain ⟨hdisj, hml, hdir⟩ := getParams_cases hparams
  have hdel : delta ≠ 0 := by rcases hdisj with ⟨h1, -⟩ | ⟨h1, -⟩ <;> omega
  obtain ⟨hw1, hh1, hnn1, hge1⟩ := squashGrid_inv hsq1
  obtain ⟨hw2, hh2, hrest2⟩ := combineGrid_inv hdel hcb
  obtain ⟨hw3, hh3, hnn3, hge3⟩ := squashGrid_inv hsq2
  have hnnG1 : NonnegGrid g1 := hnn1 hnn
  obtain ⟨hnnG2, hge2⟩ := hrest2 hnnG1
  have hnnG3 : NonnegGrid g3 := hnn3 hnnG2
  obtain ⟨hw4, hh4, hnn4, hge4, hpf1, hpf2, hpf3⟩ := placeRandom_inv hpl hiv
  have hmid : ({ gm with grid := g3 } : Game).grid = g3 := rfl
  rw [hmid] at hw4 hh4 hnn4 hge4
  have hgeStart : HasCellGe gm.grid gm.max := hasCellGe_mono hmax (hasCellGe_gridMax hw hh)
  have hgeEnd : HasCellGe gm1.grid gm.max :=
    hge4 _ (hge3 _ (hge2 _ (hge1 _ hgeStart)))
  refine ⟨?_, ?_, hnn4 hnnG3, rfl, ?_, ?_, ?_⟩
  · show gm1.grid.width = gm.grid.width
    omega
  · show gm1.grid.height = gm.grid.height
    omega
  · show gm.max ≤ gridMax gm1.grid
    exact le_gridMax_of_hasCellGe hgeEnd
  · show gm1.initial_value = gm.initial_value
    rw [hpf1]
  · show gm1.goal = gm.goal
    rw [hpf2]

theorem make_ok_facts {w h goal iv : Int} {gm0 : Game}
    (hmk : Game.make w h goal iv = .ok gm0) :
    0 < w ∧ 0 < h ∧ gm0.grid.width = w ∧ gm0.grid.height = h ∧ gm0.initial_value = iv ∧
    gm0.goal = goal ∧ gm0.max = 0 ∧ NonnegGrid gm0.grid := by
  unfold Game.make at hmk
  obtain ⟨g0, hg0, hp⟩ := except_bind_ok.mp hmk
  obtain rfl := except_pure_ok.mp hp
  unfold Grid.make at hg0
  split at hg0
  next => exact Except.noConfusion hg0
  next hcond =>
    obtain rfl := Except.ok.inj hg0
    push_neg at hcond
    refine ⟨by omega, by omega, rfl, rfl, rfl, rfl, rfl, ?_⟩
    intro p q h1 h2 h3 h4
    simp only
    rw [if_pos ⟨h1, h2, h3, h4⟩]
    simp [Grid.EMPTY]

theorem reachable_inv {w h goal iv : Int} {gm : Game} (hiv : 0 ≤ iv)
    (hr : ReachableG w h goal iv gm) :
    gm.initial_value = iv ∧ gm.goal = goal ∧ 0 < gm.grid.width ∧ 0 < gm.grid.height ∧
    NonnegGrid gm.grid ∧ gm.max ≤ gridMax gm.grid := by
  induction hr with
  | start gm0 k1 k2 gmS hmk hst =>
    obtain ⟨hw, hh, hgw, hgh, hiv0, hgoal0, hmax0, hnn0⟩ := make_ok_facts hmk
    obtain ⟨hw1, hh1, hnn1, hf1, hf2, hf3⟩ := start_facts hst (by rw [hiv0]; exact hiv)
    have hW : 0 < gmS.grid.width := by omega
    have hH : 0 < gmS.grid.height := by omega
    have hge := gridMax_nonneg (hnn1 hnn0) hW hH
    exact ⟨by omega, by omega, hW, hH, hnn1 hnn0, by omega⟩
  | slam gmP k d gm' hre hsl ih =>
    obtain ⟨hiv1, hgoal1, hw1, hh1, hnn1, hmax1⟩ := ih
    obtain ⟨sw, sh, snn, smax, smono, siv, sgoal⟩ :=
      slam_step hsl (by rw [hiv1]; exact hiv) hw1 hh1 hnn1 hmax1
    exact ⟨by omega, by omega, by omega, by omega, snn, by omega⟩

/-! ### C4: amended claim (non-negative spawn value) -/

/-- C4 (amended: for games whose spawn value is non-negative): `best_value`
(`_max`) is 0 before any slam, including after `start()`; across every
reachable state, a completed slam leaves `_max` non-decreasing and equal to
the maximum cell value on the grid, and `goalMet()` never reverts from true
to false. -/
theorem c4_best_value_monotone {w h goal iv : Int} (hiv : 0 ≤ iv) :
    (∀ gm0 k1 k2 gm, Game.make w h goal iv = .ok gm0 → gm0.start k1 k2 = .ok gm →
       gm.max = 0) ∧
    (∀ gm k d gm', ReachableG w h goal iv gm → gm.slam k d = .ok gm' →
       gm.max ≤ gm'.max ∧ gm'.max = gridMax gm'.grid ∧
       (gm.goalMet = true → gm'.goalMet = true)) := by
  constructor
  · intro gm0 k1 k2 gm hmk hst
    obtain ⟨-, -, -, -, hiv0, -, hmax0, -⟩ := make_ok_facts hmk
    obtain ⟨-, -, -, -, -, hf3⟩ := start_facts hst (by rw [hiv0]; exact hiv)
    omega
  · intro gm k d gm' hre hsl
    obtain ⟨hiv1, -, hw1, hh1, hnn1, hmax1⟩ := reachable_inv hiv hre
    obtain ⟨-, -, -, smax, smono, -, sgoal⟩ :=
      slam_step hsl (by rw [hiv1]; exact hiv) hw1 hh1 hnn1 hmax1
    refine ⟨smono, smax, ?_⟩
    intro hgm
    simp only [Game.goalMet, decide_eq_true_eq] at hgm ⊢
    rw [sgoal]
    omega

/-- Witness for `c4_best_value_monotone` at a concrete game: the 1×1 game
with goal 4 and spawn 2, after `start()` and one LEFT slam. -/
theorem c4_best_value_monotone_witness :
    (0 : Int) ≤ 2 ∧ c4wGame1.max = 0 ∧
    (c4wGame1.max ≤ c4wGame2.max ∧ c4wGame2.max = gridMax c4wGame2.grid ∧
     (c4wGame1.goalMet = true → c4wGame2.goalMet = true)) := by
  have hc := @c4_best_value_monotone 1 1 4 2 (by decide)
  refine ⟨by decide, ?_, ?_⟩
  · exact hc.1 c4wGame0 0 0 c4wGame1 rfl rfl
  · exact hc.2 c4wGame1 0 Grid.LEFT c4wGame2
      (ReachableG.start c4wGame0 0 0 c4wGame1 rfl rfl) rfl

/-! ### C10: `_place_random` modifies at most one cell -/

/-- C10: a random placement never raises; with no empty cell it returns the
game unchanged; otherwise it picks an available (EMPTY) cell, sets exactly
that cell to the spawn value, and leaves every other backing cell and the
dimensions unchanged. -/
theorem c10_place_random_frame :
    (∀ (gm : Game) (k : Nat) (e : GameError), gm.placeRandom k ≠ .error e) ∧
    (∀ (gm : Game) (k : Nat) (gm' : Game), gm.placeRandom k = .ok gm' →
      (gm.grid.availableCells = [] → gm' = gm) ∧
      (gm.grid.availableCells ≠ [] →
        gm'.grid.width = gm.grid.width ∧ gm'.grid.height = gm.grid.height ∧
        chosenCell gm k ∈ gm.grid.availableCells ∧
        gm.grid.cells ((chosenCell gm k).1 + 1) ((chosenCell gm k).2 + 1) = Grid.EMPTY ∧
        gm'.grid.cells ((chosenCell gm k).1 + 1) ((chosenCell gm k).2 + 1) =
          gm.initial_value ∧
        (∀ p q : Int, ¬(p = (chosenCell gm k).1 + 1 ∧ q = (chosenCell gm k).2 + 1) →
          gm'.grid.cells p q = gm.grid.cells p q))) := by
  constructor
  · intro gm k e hcontra
    obtain ⟨gm', hok⟩ := placeRandom_never_errors gm k
    rw [hok] at hcontra
    exact Except.noConfusion hcontra
  · intro gm k gm' hok
    rcases placeRandom_ok_cases hok with ⟨hemp, rfl⟩ | ⟨hne, hmem, hset, -, -, -⟩
    · exact ⟨fun _ => rfl, fun hne => absurd hemp hne⟩
    · refine ⟨fun hemp => absurd hemp hne, fun _ => ?_⟩
      simp only [chosenCell]
      obtain ⟨hw, hh⟩ := set_dims hset
      obtain ⟨-, hempty⟩ := mem_availableCells_facts hmem
      refine ⟨hw, hh, hmem, hempty, ?_, ?_⟩
      · rw [set_cells hset, if_pos ⟨rfl, rfl⟩]
      · intro p q hne'
        rw [set_cells hset, if_neg hne']

/-- Witness for `c10_place_random_frame`: on a fresh 2-wide, 1-high game
with spawn value 7 and index 0, the placement picks `(0, 0)`, which was
EMPTY, sets it to 7, and leaves the other cell unchanged. -/
theorem c10_place_random_frame_witness :
    c10Game.placeRandom 0 = .ok c10Game1 ∧ c10Game.grid.availableCells ≠ [] ∧
    c10Game.grid.cells 1 1 = Grid.EMPTY ∧ c10Game1.grid.cells 1 1 = 7 ∧
    c10Game1.grid.cells 1 2 = c10Game.grid.cells 1 2 := by
  have hok : c10Game.placeRandom 0 = .ok c10Game1 := rfl
  have hne : c10Game.grid.availableCells ≠ [] := by decide
  obtain ⟨hw, hh, hmem, hpre, hpost, hframe⟩ :=
    (c10_place_random_frame.2 c10Game 0 c10Game1 hok).2 hne
  have hch1 : (chosenCell c10Game 0).1 + 1 = 1 := by decide
  have hch2 : (chosenCell c10Game 0).2 + 1 = 1 := by decide
  rw [hch1, hch2] at hpre hpost
  have hiv : c10Game.initial_value = 7 := rfl
  rw [hiv] at hpost
  refine ⟨hok, hne, hpre, hpost, ?_⟩
  refine hframe 1 2 ?_
  rw [hch1, hch2]
  decide

/-! ### C3: amended invariant -/

/-- C3 (amended: `set` performs only bounds validation, so the EDGE
sentinel can be stored through it; the invariant holds for construction and
is preserved by `set` exactly when the stored value is itself EMPTY or
positive): a fresh grid's public cells are all EMPTY-or-positive, `set`
with an EMPTY-or-positive value preserves this, and under the invariant
`get` never returns the EDGE sentinel. -/
theorem c3_invariant_preserved :
    (∀ (w h : Int) (g : Grid), Grid.make w h = .ok g → NonnegGrid g) ∧
    (∀ (g : Grid) (j i v : Int) (g' : Grid), g.set j i v = .ok g' → NonnegGrid g →
      0 ≤ v → NonnegGrid g') ∧
    (∀ (g : Grid) (j i v : Int), NonnegGrid g → g.get j i = .ok v → v ≠ Grid.EDGE) := by
  refine ⟨?_, ?_, ?_⟩
  · intro w h g hmk
    unfold Grid.make at hmk
    split at hmk
    · exact Except.noConfusion hmk
    next hcond =>
      obtain rfl := Except.ok.inj hmk
      intro p q h1 h2 h3 h4
      simp only
      rw [if_pos ⟨h1, h2, h3, h4⟩]
      simp [Grid.EMPTY]
  · intro g j i v g' hset hg hv p q h1 h2 h3 h4
    obtain ⟨hw, hh⟩ := set_dims hset
    rw [hh] at h2
    rw [hw] at h4
    rw [set_cells hset]
    split
    · exact hv
    · exact hg p q h1 h2 h3 h4
  · intro g j i v hg hget
    obtain ⟨⟨hb1, hb2, hb3, hb4⟩, hv⟩ := get_eq_ok.mp hget
    have hnn := hg (j + 1) (i + 1) (by omega) (by omega) (by omega) (by omega)
    intro hEq
    rw [hv] at hEq
    rw [hEq] at hnn
    simp [Grid.EDGE] at hnn

/-- Witness for `c3_invariant_preserved` at the fresh 1×1 grid. -/
theorem c3_invariant_witness :
    c3Grid0.get 0 0 = .ok Grid.EMPTY ∧ (Grid.EMPTY : Int) ≠ Grid.EDGE :=
  ⟨rfl, c3_invariant_preserved.2.2 c3Grid0 0 0 Grid.EMPTY
    (c3_invariant_preserved.1 1 1 c3Grid0 rfl) rfl⟩

/-! ### C5: amended direction validation -/

theorem anyEM_ok {α : Type} (f : α → Except GameError Bool) :
    ∀ (l : List α), (∀ x ∈ l, ∃ b, f x = .ok b) → ∃ b, anyEM f l = .ok b := by
  intro l
  induction l with
  | nil =>
    intro hf
    exact ⟨false, rfl⟩
  | cons x xs ih =>
    intro hf
    obtain ⟨b, hb⟩ := hf x (List.mem_cons_self x xs)
    obtain ⟨b', hb'⟩ := ih (fun y hy => hf y (List.mem_cons_of_mem x hy))
    cases b with
    | false =>
      refine ⟨b', except_bind_ok.mpr ⟨false, hb, ?_⟩⟩
      simpa using hb'
    | true =>
      exact ⟨true, except_bind_ok.mpr ⟨true, hb, rfl⟩⟩

theorem get_ok_of_bounds {g : Grid} {j i : Int}
    (h1 : 0 ≤ j) (h2 : j < g.height) (h3 : 0 ≤ i) (h4 : i < g.width) :
    g.get j i = .ok (g.cells (j + 1) (i + 1)) :=
  get_eq_ok.mpr ⟨⟨h1, h2, h3, h4⟩, rfl⟩

theorem mem_neighbors_bounds {g : Grid} {j i : Int} {dirs : List (Int × Int)} {p : Int × Int}
    (h : p ∈ g.neighbors j i dirs) :
    0 ≤ p.1 ∧ p.1 < g.height ∧ 0 ≤ p.2 ∧ p.2 < g.width := by
  obtain ⟨d, hd, hif⟩ := List.mem_filterMap.mp h
  replace hif : (if g.onGrid (j + 1 + d.1) (i + 1 + d.2)
      then some (j + 1 + d.1 - 1, i + 1 + d.2 - 1) else none) = some p := hif
  split at hif
  next hc =>
    injection hif with hif
    subst hif
    simp only [Grid.onGrid, decide_eq_true_eq] at hc
    simp only
    omega
  next =>
    exact Option.noConfusion hif

theorem positionCanMove_ok {gm : Game} {j i : Int}
    (h1 : 0 ≤ j) (h2 : j < gm.grid.height) (h3 : 0 ≤ i) (h4 : i < gm.grid.width)
    (dirs : List (Int × Int)) :
    ∃ b, gm.positionCanMove j i dirs = .ok b := by
  obtain ⟨b, hb⟩ := anyEM_ok
    (fun p => do
      let nv ← gm.grid.get p.1 p.2
      pure (decide (nv = Grid.EMPTY ∨ nv = gm.grid.cells (j + 1) (i + 1))))
    (gm.grid.neighbors j i dirs)
    (fun p hp => by
      obtain ⟨hn1, hn2, hn3, hn4⟩ := mem_neighbors_bounds hp
      exact ⟨_, except_bind_ok.mpr ⟨_, get_ok_of_bounds hn1 hn2 hn3 hn4, rfl⟩⟩)
  exact ⟨b, except_bind_ok.mpr ⟨_, get_ok_of_bounds h1 h2 h3 h4, hb⟩⟩

theorem anyCanMove_ok (gm : Game) (dirs : List (Int × Int)) :
    ∃ b, gm.anyCanMove dirs = .ok b := by
  unfold Game.anyCanMove
  apply anyEM_ok
  intro i hi
  apply anyEM_ok
  intro j hj
  rw [List.mem_range] at hi
  rw [List.mem_range] at hj
  have h1 : (0 : Int) ≤ (j : Int) := by omega
  have h2 : (j : Int) < gm.grid.height := by omega
  have h3 : (0 : Int) ≤ (i : Int) := by omega
  have h4 : (i : Int) < gm.grid.width := by omega
  by_cases hv : gm.grid.cells ((j : Int) + 1) ((i : Int) + 1) = Grid.EMPTY
  · exact ⟨true, except_bind_ok.mpr ⟨_, get_ok_of_bounds h1 h2 h3 h4,
      by rw [if_pos hv]; rfl⟩⟩
  · obtain ⟨b, hb⟩ := positionCanMove_ok h1 h2 h3 h4 dirs
    exact ⟨b, except_bind_ok.mpr ⟨_, get_ok_of_bounds h1 h2 h3 h4,
      by rw [if_neg hv]; exact hb⟩⟩

/-- C5 (amended: only `slam` validates its direction): `slam` fails with
InvalidArgument on every unrecognized direction, while `any_can_move`
performs no direction validation and completes normally (returning a
boolean) on every direction list. -/
theorem c5_slam_validates_any_can_move_does_not :
    (∀ (gm : Game) (k : Nat) (d : Int × Int), d ∉ Grid.DIRECTIONS →
      gm.slam k d = .error .invalidArgument) ∧
    (∀ (gm : Game) (dirs : List (Int × Int)), ∃ b, gm.anyCanMove dirs = .ok b) := by
  constructor
  · intro gm k d hd
    unfold Game.slam Game.validateDirection
    rw [if_neg hd]
    rfl
  · exact anyCanMove_ok

/-- Witness for `c5_slam_validates_any_can_move_does_not` at the direction
`(2, 3)` on a fresh 1×1 game. -/
theorem c5_validation_witness :
    ((2, 3) : Int × Int) ∉ Grid.DIRECTIONS ∧
    c5Game.slam 0 (2, 3) = .error .invalidArgument := by
  have hd : ((2, 3) : Int × Int) ∉ Grid.DIRECTIONS := by decide
  exact ⟨hd, c5_slam_validates_any_can_move_does_not.1 c5Game 0 (2, 3) hd⟩

/-! ### C6: amended partition -/

/-- C6 (amended: for grid states whose public cells do not hold the EDGE
sentinel): a public coordinate is in `availableCells()` iff its cell is
EMPTY and in `occupiedCells()` iff its cell is not EMPTY (hence in exactly
one of the two), and every member of either sequence is a public
coordinate (no sentinel border cell appears). -/
theorem c6_available_occupied_partition (g : Grid)
    (hedge : ∀ j i : Int, 1 ≤ j → j ≤ g.height → 1 ≤ i → i ≤ g.width →
      g.cells j i ≠ Grid.EDGE) :
    (∀ r c : Int, 0 ≤ r → r < g.height → 0 ≤ c → c < g.width →
      (((r, c) ∈ g.availableCells ↔ g.cells (r + 1) (c + 1) = Grid.EMPTY) ∧
       ((r, c) ∈ g.occupiedCells ↔ g.cells (r + 1) (c + 1) ≠ Grid.EMPTY))) ∧
    (∀ r c : Int, (r, c) ∈ g.availableCells ∨ (r, c) ∈ g.occupiedCells →
      0 ≤ r ∧ r < g.height ∧ 0 ≤ c ∧ c < g.width) := by
  constructor
  · intro r c h1 h2 h3 h4
    constructor
    · constructor
      · intro hm
        exact (mem_availableCells.mp hm).2
      · intro h5
        exact mem_availableCells.mpr ⟨⟨h1, h2, h3, h4⟩, h5⟩
    · constructor
      · intro hm
        exact (mem_occupiedCells.mp hm).2.1
      · intro h5
        exact mem_occupiedCells.mpr ⟨⟨h1, h2, h3, h4⟩, h5,
          hedge (r + 1) (c + 1) (by omega) (by omega) (by omega) (by omega)⟩
  · intro r c h
    rcases h with h | h
    · exact (mem_availableCells.mp h).1
    · exact (mem_occupiedCells.mp h).1

/-- Witness for `c6_available_occupied_partition` at the fresh 1×1 grid:
`(0, 0)` is available and not occupied. -/
theorem c6_partition_witness :
    (0, 0) ∈ c6wGrid.availableCells ∧ (0, 0) ∉ c6wGrid.occupiedCells := by
  have hH : c6wGrid.height = 1 := rfl
  have hW : c6wGrid.width = 1 := rfl
  have hedge : ∀ j i : Int, 1 ≤ j → j ≤ c6wGrid.height → 1 ≤ i → i ≤ c6wGrid.width →
      c6wGrid.cells j i ≠ Grid.EDGE := by
    intro j i h1 h2 h3 h4
    have hj : j = 1 := by omega
    have hi : i = 1 := by omega
    subst hj
    subst hi
    decide
  obtain ⟨hiff, -⟩ := c6_available_occupied_partition c6wGrid hedge
  obtain ⟨hav, hoc⟩ := hiff 0 0 (by decide) (by rw [hH]; decide) (by decide) (by rw [hW]; decide)
  constructor
  · exact hav.mpr (by decide)
  · intro hmem
    exact (hoc.mp hmem) (by decide)

/-! ### C9: neighbors performs no bounds check on its input -/

/-- C9: confirmed. For every integer input coordinate — including
coordinates outside the public space and on the sentinel border —
`neighbors` raises no error (it is total) and yields exactly those adjacent
positions, in the given direction order, that lie within public bounds:
it equals the claim-side enumeration `neighborsSpec`. -/
theorem c9_neighbors_unchecked_input (g : Grid) (j i : Int) (dirs : List (Int × Int)) :
    g.neighbors j i dirs = neighborsSpec g j i dirs := by
  unfold Grid.neighbors neighborsSpec
  apply List.filterMap_congr
  intro d _
  by_cases hc : 0 ≤ j + d.1 ∧ j + d.1 < g.height ∧ 0 ≤ i + d.2 ∧ i + d.2 < g.width
  · rw [if_pos (show g.onGrid (j + 1 + d.1) (i + 1 + d.2) = true by
      simp only [Grid.onGrid, decide_eq_true_eq]; omega), if_pos hc]
    have e1 : j + 1 + d.1 - 1 = j + d.1 := by omega
    have e2 : i + 1 + d.2 - 1 = i + d.2 := by omega
    rw [e1, e2]
  · rw [if_neg (show ¬(g.onGrid (j + 1 + d.1) (i + 1 + d.2) = true) by
      simp only [Grid.onGrid, decide_eq_true_eq]; omega), if_neg hc]

/-! ### C8: `_combine` preserves every line's sum -/

theorem lineLen_congr {tr : Bool} {g g' : Grid}
    (hw : g'.width = g.width) (hh : g'.height = g.height) :
    lineLen tr g' = lineLen tr g := by
  cases tr <;> simp [lineLen, hw, hh]

theorem sum_range_ite (n x : Nat) (hx : x < n) (f : Nat → Int) (v : Int) :
    (∑ c ∈ Finset.range n, if c = x then v else f c) =
      (∑ c ∈ Finset.range n, f c) - f x + v := by
  have hmem : x ∈ Finset.range n := Finset.mem_range.mpr hx
  rw [← Finset.add_sum_erase _ (fun c => if c = x then v else f c) hmem,
      ← Finset.add_sum_erase _ f hmem]
  rw [if_pos rfl]
  have hcongr : (∑ c ∈ (Finset.range n).erase x, if c = x then v else f c) =
      ∑ c ∈ (Finset.range n).erase x, f c := by
    apply Finset.sum_congr rfl
    intro c hc
    rw [if_neg (Finset.ne_of_mem_erase hc)]
  rw [hcongr]
  ring

theorem lineSum_gset {tr : Bool} {g g' : Grid} {row x v max_ : Int}
    (h : gset tr g row x v = .ok g') (h1 : 0 ≤ x) (h2 : x < max_) :
    lineSum tr max_ g' row = lineSum tr max_ g row - vcell tr g row x + v := by
  unfold lineSum
  have hx : x.toNat < max_.toNat := by omega
  have hpt : ∀ c ∈ Finset.range max_.toNat,
      vcell tr g' row (c : Int) = if c = x.toNat then v else vcell tr g row (c : Int) := by
    intro c _
    rw [gset_vcell h]
    by_cases hc : (c : Int) = x
    · rw [if_pos hc, if_pos (by omega)]
    · rw [if_neg hc, if_neg (by omega)]
  rw [Finset.sum_congr rfl hpt, sum_range_ite _ x.toNat hx]
  have he : ((x.toNat : Nat) : Int) = x := by omega
  rw [he]

theorem lineSum_gset_other {tr : Bool} {g g' : Grid} {row x v max_ : Int} {row' : Int}
    (h : gset tr g row x v = .ok g') (hrow : row' ≠ row) :
    lineSum tr max_ g' row' = lineSum tr max_ g row' := by
  unfold lineSum
  apply Finset.sum_congr rfl
  intro c _
  exact gset_vcell_other_row h hrow _

theorem combineLoop_sum {tr : Bool} {start max_ delta row : Int} (hdel : delta ≠ 0) :
    ∀ (fuel : Nat) (curr : Int) (g g' : Grid),
      max_ = lineLen tr g →
      combineLoop tr start max_ delta row fuel curr g = .ok g' →
      lineSum tr max_ g' row = lineSum tr max_ g row ∧
      (∀ row' : Int, row' ≠ row → lineSum tr max_ g' row' = lineSum tr max_ g row') := by
  intro fuel
  induction fuel with
  | zero =>
    intro curr g g' hml h
    simp only [combineLoop] at h
    obtain rfl := except_pure_ok.mp h
    exact ⟨rfl, fun _ _ => rfl⟩
  | succ fuel ih =>
    intro curr g g' hml h
    simp only [combineLoop] at h
    split at h
    · obtain ⟨cv, hcv, h⟩ := except_bind_ok.mp h
      obtain ⟨nv, hnv, h⟩ := except_bind_ok.mp h
      split at h
      next hEq =>
        obtain ⟨g1, hg1, h⟩ := except_bind_ok.mp h
        obtain ⟨g2, hg2, h⟩ := except_bind_ok.mp h
        obtain ⟨-, hc1, hc2⟩ := (gget_eq_ok.mp hcv).1
        obtain ⟨-, hn1, hn2⟩ := (gget_eq_ok.mp hnv).1
        have hcurrV : vcell tr g row curr = cv := ((gget_eq_ok.mp hcv).2).symm
        have hnextV : vcell tr g row (curr + delta) = cv := by
          rw [← (gget_eq_ok.mp hnv).2]
          exact hEq.2.symm
        obtain ⟨hw1, hh1⟩ := gset_dims hg1
        obtain ⟨hw2, hh2⟩ := gset_dims hg2
        have hW2 : g2.width = g.width := by omega
        have hH2 : g2.height = g.height := by omega
        have hml2 : max_ = lineLen tr g2 := by
          rw [lineLen_congr hW2 hH2]
          exact hml
        obtain ⟨hown, hother⟩ := ih _ g2 g' hml2 h
        have hs1 : lineSum tr max_ g1 row =
            lineSum tr max_ g row - vcell tr g row curr + cv * 2 :=
          lineSum_gset hg1 hc1 (by omega)
        have hnext1 : vcell tr g1 row (curr + delta) = vcell tr g row (curr + delta) := by
          rw [gset_vcell hg1, if_neg (by omega)]
        have hs2 : lineSum tr max_ g2 row =
            lineSum tr max_ g1 row - vcell tr g1 row (curr + delta) + Grid.EMPTY :=
          lineSum_gset hg2 hn1 (by omega)
        refine ⟨?_, ?_⟩
        · rw [hown, hs2, hnext1, hs1, hnextV, hcurrV]
          simp only [Grid.EMPTY]
          ring
        · intro row' hrow
          rw [hother row' hrow, lineSum_gset_other hg2 hrow, lineSum_gset_other hg1 hrow]
      next =>
        exact ih _ g g' hml h
    · obtain rfl := except_pure_ok.mp h
      exact ⟨rfl, fun _ _ => rfl⟩

theorem combineGrid_sums {start max_ delta : Int} {tr : Bool} {g g' : Grid}
    (hdel : delta ≠ 0) (hml : max_ = lineLen tr g)
    (h : combineGrid start max_ delta tr g = .ok g') :
    ∀ row : Int, lineSum tr max_ g' row = lineSum tr max_ g row := by
  refine (foldlM_ok_inv
    (fun gg => max_ = lineLen tr gg ∧
      ∀ row : Int, lineSum tr max_ gg row = lineSum tr max_ g row)
    _ ?_ _ g g' ⟨hml, fun _ => rfl⟩ h).2
  intro r gg gg' hP hstep
  simp only [combineLine] at hstep
  obtain ⟨hml0, hsum0⟩ := hP
  obtain ⟨hown, hother⟩ := combineLoop_sum hdel _ _ gg gg' hml0 hstep
  obtain ⟨hw, hh, -⟩ := combineLoop_inv hdel _ _ gg gg' hstep
  constructor
  · rw [lineLen_congr hw hh]
    exact hml0
  · intro row
    by_cases hr : row = (r : Int)
    · subst hr
      rw [hown]
      exact hsum0 _
    · rw [hother row hr]
      exact hsum0 row

/-- C8: confirmed. For every grid, every recognized direction's parameters,
and every line (its full scan extent `[0, max_)` in the accessor frame),
a completed `_combine` leaves the line's sum of cell values unchanged:
each merge replaces two adjacent equal values `v` with `2v` and `EMPTY`,
conserving the sum. -/
theorem c8_combine_preserves_line_sums (g : Grid) (d : Int × Int)
    (start max_ delta : Int) (tr : Bool) (g' : Grid)
    (hp : getParamsForDirection g d = .ok (start, max_, delta, tr))
    (h : combineGrid start max_ delta tr g = .ok g') :
    ∀ row : Int, lineSum tr max_ g' row = lineSum tr max_ g row := by
  obtain ⟨hdisj, hml, -⟩ := getParams_cases hp
  have hdel : delta ≠ 0 := by rcases hdisj with ⟨h1, -⟩ | ⟨h1, -⟩ <;> omega
  exact combineGrid_sums hdel hml h

/-- Witness for `c8_combine_preserves_line_sums`: LEFT combine on a 2×2
grid whose top row is `[1, 1]` (sum 2 before and after the merge into
`[2, 0]`). -/
theorem c8_combine_witness :
    getParamsForDirection c8Grid Grid.LEFT = .ok (0, 2, 1, false) ∧
    combineGrid 0 2 1 false c8Grid = .ok c8Grid1 ∧
    lineSum false 2 c8Grid 0 = 2 ∧
    lineSum false 2 c8Grid1 0 = lineSum false 2 c8Grid 0 := by
  refine ⟨rfl, rfl, ?_, ?_⟩
  · decide
  · exact c8_combine_preserves_line_sums c8Grid Grid.LEFT 0 2 1 false c8Grid1 rfl rfl 0

/-! ### C7: squash on already-squashed lines -/

theorem spos_succ (start delta : Int) (k : Nat) :
    spos start delta (k + 1) = spos start delta k + delta := by
  simp only [spos]
  push_cast
  ring

theorem spos_range {start max_ delta : Int}
    (hd : delta = 1 ∧ start = 0 ∨ delta = -1 ∧ start = max_ - 1) (k : Nat) :
    (0 ≤ spos start delta k ∧ spos start delta k < max_) ↔ k < max_.toNat := by
  rcases hd with ⟨h1, h2⟩ | ⟨h1, h2⟩ <;> subst h1 <;> subst h2 <;>
    simp only [spos, mul_one, mul_neg_one] <;> omega

theorem spos_inj {start max_ delta : Int}
    (hd : delta = 1 ∧ start = 0 ∨ delta = -1 ∧ start = max_ - 1) {k l : Nat}
    (hk : spos start delta k = spos start delta l) : k = l := by
  rcases hd with ⟨h1, h2⟩ | ⟨h1, h2⟩ <;> subst h1 <;> subst h2 <;>
    simp only [spos, mul_one, mul_neg_one] at hk <;> omega

theorem rowBound_congr {tr : Bool} {g g' : Grid}
    (hw : g'.width = g.width) (hh : g'.height = g.height) :
    rowBound tr g' = rowBound tr g := by
  cases tr <;> simp [rowBound, hw, hh]

theorem packed_noPos {start max_ delta : Int} {tr : Bool} {g : Grid} {row : Int}
    (hp : PackedLine start max_ delta tr g row) :
    NoPosAfterEmpty start max_ delta tr g row := by
  intro k hk l hl hE
  rw [hp k hk l hl hE]
  simp [Grid.EMPTY]

/-- If no positive value follows an EMPTY position (in scan order), the
inner `_squash` loop makes no write and returns the grid unchanged. -/
theorem squashLoop_id {tr : Bool} {start max_ delta row : Int} {g : Grid}
    (hd : delta = 1 ∧ start = 0 ∨ delta = -1 ∧ start = max_ - 1)
    (hrow : rowOK tr g row) (hscan : max_ ≤ lineLen tr g)
    (hP : NoPosAfterEmpty start max_ delta tr g row) :
    ∀ (fuel : Nat) (c l : Nat), l ≤ c →
      squashLoop tr max_ delta row fuel (spos start delta c) (spos start delta l) g =
        .ok g := by
  intro fuel
  induction fuel with
  | zero =>
    intro c l hlc
    simp only [squashLoop]
    rfl
  | succ fuel ih =>
    intro c l hlc
    simp only [squashLoop]
    split
    next hcond =>
      have hcn : c < max_.toNat := (spos_range hd c).mp ⟨hcond.1.1, hcond.1.2⟩
      have hln : l < max_.toNat := (spos_range hd l).mp ⟨hcond.2.1, hcond.2.2⟩
      refine except_bind_ok.mpr ⟨vcell tr g row (spos start delta l),
        gget_ok_of_bounds hrow hcond.2.1 (by omega), ?_⟩
      by_cases hlv : vcell tr g row (spos start delta l) = Grid.EMPTY
      · rw [if_pos hlv]
        refine except_bind_ok.mpr ⟨vcell tr g row (spos start delta c),
          gget_ok_of_bounds hrow hcond.1.1 (by omega), ?_⟩
        have hnp : vcell tr g row (spos start delta c) ≤ 0 := hP c hcn l hlc hlv
        rw [if_neg (by omega : ¬vcell tr g row (spos start delta c) > 0)]
        rw [← spos_succ]
        exact ih (c + 1) l (by omega)
      · rw [if_neg hlv]
        rw [← spos_succ, ← spos_succ]
        exact ih (c + 1) (l + 1) (by omega)
    next hcond =>
      rfl

/-- On a line of non-negative values, a completed inner `_squash` loop run
to exhaustion leaves the line packed: positives first, then EMPTY. -/
theorem squashLoop_packs {tr : Bool} {start max_ delta row : Int}
    (hd : delta = 1 ∧ start = 0 ∨ delta = -1 ∧ start = max_ - 1) :
    ∀ (fuel : Nat) (c l : Nat) (g g' : Grid),
      l ≤ c → c + fuel = max_.toNat →
      (∀ k, k < l → 0 < vcell tr g row (spos start delta k)) →
      (∀ k, l ≤ k → k < c → vcell tr g row (spos start delta k) = Grid.EMPTY) →
      NonnegLine start max_ delta tr g row →
      squashLoop tr max_ delta row fuel (spos start delta c) (spos start delta l) g =
        .ok g' →
      PackedLine start max_ delta tr g' row := by
  have hsne : ∀ (a b : Nat), a ≠ b → spos start delta a ≠ spos start delta b :=
    fun a b hab hc => hab (spos_inj hd hc)
  intro fuel
  induction fuel with
  | zero =>
    intro c l g g' hlc hfc hI1 hI2 hnn h
    simp only [squashLoop] at h
    obtain rfl := except_pure_ok.mp h
    intro k hk l' hl' hE
    have hl'L : l ≤ l' := by
      by_contra hcon
      push_neg at hcon
      have hpos := hI1 l' hcon
      rw [hE] at hpos
      simp [Grid.EMPTY] at hpos
    exact hI2 k (by omega) (by omega)
  | succ fuel ih =>
    intro c l g g' hlc hfc hI1 hI2 hnn h
    simp only [squashLoop] at h
    split at h
    next hcond =>
      obtain ⟨lv, hlv, h⟩ := except_bind_ok.mp h
      have hlvV : lv = vcell tr g row (spos start delta l) := (gget_eq_ok.mp hlv).2
      split at h
      next hlvE =>
        obtain ⟨cv, hcv, h⟩ := except_bind_ok.mp h
        have hcvV : cv = vcell tr g row (spos start delta c) := (gget_eq_ok.mp hcv).2
        have hlvEq : vcell tr g row (spos start delta l) = Grid.EMPTY := by
          rw [← hlvV]
          exact hlvE
        split at h
        next hcvP =>
          obtain ⟨g1, hg1, h⟩ := except_bind_ok.mp h
          obtain ⟨g2, hg2, h⟩ := except_bind_ok.mp h
          have hlc' : l ≠ c := by
            intro he
            rw [he, ← hcvV] at hlvEq
            rw [hlvEq] at hcvP
            simp [Grid.EMPTY] at hcvP
          have hlltc : l < c := by omega
          rw [← spos_succ, ← spos_succ] at h
          refine ih (c + 1) (l + 1) g2 g' (by omega) (by omega) ?_ ?_ ?_ h
          · intro k hk
            rcases Nat.lt_succ_iff_lt_or_eq.mp hk with hk' | hk'
            · have e2 : vcell tr g2 row (spos start delta k) =
                  vcell tr g row (spos start delta k) := by
                rw [gset_vcell hg2, if_neg (hsne k c (by omega)),
                    gset_vcell hg1, if_neg (hsne k l (by omega))]
              rw [e2]
              exact hI1 k hk'
            · subst hk'
              have e2 : vcell tr g2 row (spos start delta k) = cv := by
                rw [gset_vcell hg2, if_neg (hsne k c (by omega)),
                    gset_vcell hg1, if_pos rfl]
              rw [e2]
              exact hcvP
          · intro k h1 h2
            by_cases hkc : k = c
            · subst hkc
              rw [gset_vcell hg2, if_pos rfl]
            · have e2 : vcell tr g2 row (spos start delta k) =
                  vcell tr g row (spos start delta k) := by
                rw [gset_vcell hg2, if_neg (hsne k c hkc),
                    gset_vcell hg1, if_neg (hsne k l (by omega))]
              rw [e2]
              exact hI2 k (by omega) (by omega)
          · intro k hk
            by_cases hkc : k = c
            · subst hkc
              rw [gset_vcell hg2, if_pos rfl]
              simp [Grid.EMPTY]
            · by_cases hkl : k = l
              · subst hkl
                rw [gset_vcell hg2, if_neg (hsne k c hkc), gset_vcell hg1, if_pos rfl]
                omega
              · rw [gset_vcell hg2, if_neg (hsne k c hkc),
                    gset_vcell hg1, if_neg (hsne k l hkl)]
                exact hnn k hk
        next hcvP =>
          rw [← spos_succ] at h
          refine ih (c + 1) l g g' (by omega) (by omega) hI1 ?_ hnn h
          intro k hk1 hk2
          by_cases hkc : k = c
          · subst hkc
            have h0 : 0 ≤ vcell tr g row (spos start delta k) := hnn k (by omega)
            rw [← hcvV] at h0 ⊢
            simp only [Grid.EMPTY]
            omega
          · exact hI2 k hk1 (by omega)
      next hlvNE =>
        have hlEq : l = c := by
          by_contra hcon
          have hE := hI2 l (le_refl l) (by omega)
          rw [← hlvV] at hE
          exact hlvNE hE
        subst hlEq
        rw [← spos_succ] at h
        refine ih (l + 1) (l + 1) g g' (le_refl _) (by omega) ?_ (fun k h1 h2 => by omega)
          hnn h
        intro k hk
        rcases Nat.lt_succ_iff_lt_or_eq.mp hk with hk' | hk'
        · exact hI1 k hk'
        · subst hk'
          have h1 := hnn k (by omega)
          have h2 : vcell tr g row (spos start delta k) ≠ Grid.EMPTY := by
            rw [← hlvV]
            exact hlvNE
          simp only [Grid.EMPTY] at h2
          omega
    next hcond =>
      exfalso
      apply hcond
      have hcn : c < max_.toNat := by omega
      have hln : l < max_.toNat := by omega
      obtain ⟨hc1, hc2⟩ := (spos_range hd c).mpr hcn
      obtain ⟨hl1, hl2⟩ := (spos_range hd l).mpr hln
      exact ⟨⟨hc1, hc2⟩, hl1, hl2⟩

/-- C7 (amended: the "already squashed line is unchanged" statement holds
as claimed; the "equivalently, squash composed with squash equals a single
squash" clause holds for lines of non-negative values — on lines holding
negative values, which only `set` can produce and which `_squash` never
moves, it fails): for every direction parameterization used by `slam` and
every existing line, squashing an already-packed line returns the grid
unchanged, and on a line of non-negative values squashing twice equals
squashing once. -/
theorem c7_squash_idempotent (g : Grid) (d : Int × Int) (start max_ delta : Int)
    (tr : Bool) (row : Int)
    (hp : getParamsForDirection g d = .ok (start, max_, delta, tr))
    (hrow : rowOK tr g row) :
    (PackedLine start max_ delta tr g row →
      squashLine start max_ delta tr row g = .ok g) ∧
    (∀ g1, NonnegLine start max_ delta tr g row →
      squashLine start max_ delta tr row g = .ok g1 →
      squashLine start max_ delta tr row g1 = .ok g1) := by
  obtain ⟨hd, hml, -⟩ := getParams_cases hp
  have hscan : max_ ≤ lineLen tr g := le_of_eq hml
  have h0 : spos start delta 0 = start := by simp [spos]
  constructor
  · intro hpk
    unfold squashLine
    rw [← h0]
    exact squashLoop_id hd hrow hscan (packed_noPos hpk) max_.toNat 0 0 (le_refl 0)
  · intro g1 hnn hsq
    unfold squashLine at hsq ⊢
    rw [← h0] at hsq
    have hpk1 : PackedLine start max_ delta tr g1 row :=
      squashLoop_packs hd max_.toNat 0 0 g g1 (le_refl 0) (by omega)
        (fun k hk => absurd hk (Nat.not_lt_zero k))
        (fun k h1 h2 => absurd h2 (Nat.not_lt_zero k)) hnn hsq
    obtain ⟨hw1, hh1, -, -⟩ := squashLoop_inv _ _ _ g g1 hsq
    have hrow1 : rowOK tr g1 row := by
      unfold rowOK at hrow ⊢
      rw [rowBound_congr hw1 hh1]
      exact hrow
    have hscan1 : max_ ≤ lineLen tr g1 := by
      rw [lineLen_congr hw1 hh1]
      exact hscan
    rw [← h0]
    exact squashLoop_id hd hrow1 hscan1 (packed_noPos hpk1) max_.toNat 0 0 (le_refl 0)

/-- Witness for `c7_squash_idempotent` on the 2×2 grid with packed top row
`[3, 0]` and the LEFT parameters. -/
theorem c7_squash_idempotent_witness :
    squashLine 0 2 1 false 0 c7wGrid = .ok c7wGrid ∧
    squashLine 0 2 1 false 0 c7wGrid1 = .ok c7wGrid1 := by
  have hrow : rowOK false c7wGrid 0 :=
    show (0 : Int) ≤ 0 ∧ (0 : Int) < rowBound false c7wGrid from ⟨by decide, by decide⟩
  have hth := c7_squash_idempotent c7wGrid Grid.LEFT 0 2 1 false 0 rfl hrow
  have h2 : (2 : Int).toNat = 2 := rfl
  have hpk : PackedLine 0 2 1 false c7wGrid 0 := by
    intro k hk l hl hE
    rw [h2] at hk
    interval_cases k <;> interval_cases l <;> revert hE <;> decide
  have hnn : NonnegLine 0 2 1 false c7wGrid 0 := by
    intro k hk
    rw [h2] at hk
    interval_cases k <;> decide
  exact ⟨hth.1 hpk, hth.2 c7wGrid1 hnn rfl⟩

end GridGame
